import Mathlib

set_option autoImplicit false

namespace GhosttyOpentui

/-! # Cell and style data model

Shallow embedding of the core data types used by the native Zig module
(`writeJsonOutput`, `getStyleFromCell`, `StyleFlags`, `CellStyle`) of the
ghostty-opentui repository.  The ghostty-vt library types they refer to
(`color.RGB`, `page.Cell`, the terminal `Style`) are not part of the
repository sources and are modelled from the specification's data model
(§3 of the spec). -/

/-- Modelled from the spec: ghostty-vt's `color.RGB`, a direct 24-bit RGB
triple with three 8-bit channels. -/
structure RGB where
  r : Fin 256
  g : Fin 256
  b : Fin 256
deriving DecidableEq

/-- Modelled from the spec: the emulator's 256-entry palette table. -/
abbrev Palette : Type := List RGB

/-- Palette lookup, black when out of range. -/
def paletteGet (p : Palette) (idx : Fin 256) : RGB :=
  p.getD idx.val ⟨0, 0, 0⟩

/-- `StyleFlags`, the `packed struct(u8)` of the native module: six attribute
bits (bold=bit0, italic=bit1, underline=bit2, strikethrough=bit3,
inverse=bit4, faint=bit5) plus two padding bits that are always zero. -/
structure StyleFlags where
  bold : Bool := false
  italic : Bool := false
  underline : Bool := false
  strikethrough : Bool := false
  inverse : Bool := false
  faint : Bool := false
deriving DecidableEq

/-- `StyleFlags.toInt`: the `@bitCast` of the packed struct to `u8`.  With the
padding bits zero this is the weighted sum of the six attribute bits. -/
def StyleFlags.toInt (s : StyleFlags) : Nat :=
  (cond s.bold 1 0) + (cond s.italic 2 0) + (cond s.underline 4 0) +
    (cond s.strikethrough 8 0) + (cond s.inverse 16 0) + (cond s.faint 32 0)

/-- `StyleFlags.eql`: compares the packed integer encodings. -/
def StyleFlags.eql (s other : StyleFlags) : Bool :=
  s.toInt == other.toInt

/-- `CellStyle`: resolved foreground, background and attribute flags of a
cell, as computed by `getStyleFromCell`. -/
structure CellStyle where
  fg : Option RGB
  bg : Option RGB
  flags : StyleFlags
deriving DecidableEq

/-- `CellStyle.eql`: field-by-field comparison, colors channel-wise. -/
def CellStyle.eql (self other : CellStyle) : Bool :=
  let fg_eq : Bool :=
    match self.fg, other.fg with
    | some a, some b => a.r == b.r && a.g == b.g && a.b == b.b
    | some _, none => false
    | none, o => o.isNone
  let bg_eq : Bool :=
    match self.bg, other.bg with
    | some a, some b => a.r == b.r && a.g == b.g && a.b == b.b
    | some _, none => false
    | none, o => o.isNone
  fg_eq && bg_eq && self.flags.eql other.flags

/-- Modelled from the spec: the width class of a cell (§3 Cell): narrow,
wide, the spacer tail occupying the right half of a wide cell, and the
spacer head ghostty places at a row end before a wrapped wide cell. -/
inductive Wide where
  | narrow
  | wide
  | spacer_tail
  | spacer_head
deriving DecidableEq

/-- Modelled from the spec: a style color (§3 Color): absent, a palette
index, or a direct RGB triple. -/
inductive ColorSpec where
  | none
  | palette (idx : Fin 256)
  | rgb (c : RGB)
deriving DecidableEq

/-- Modelled from the spec: ghostty-vt's per-style record (§3 Style): the six
boolean attributes (underline is reduced to its `≠ none` test, which is all
the native module reads) and the two style colors. -/
structure RawStyle where
  bold : Bool := false
  italic : Bool := false
  faint : Bool := false
  inverse : Bool := false
  strikethrough : Bool := false
  underline : Bool := false
  fg_color : ColorSpec := .none
  bg_color : ColorSpec := .none
deriving DecidableEq

instance : Inhabited RawStyle := ⟨{}⟩

/-- Modelled from the spec: the cell-level background content variants of a
ghostty cell (`content_tag` being `bg_color_palette` or `bg_color_rgb`),
which the native module reads when the style has no background. -/
inductive CellBg where
  | none
  | bgPalette (idx : Fin 256)
  | bgRgb (c : RGB)
deriving DecidableEq

/-- Modelled from the spec: one grid cell (§3 Cell): a Unicode scalar (0
meaning never written), a width class, its style and an optional cell-level
background. -/
structure Cell where
  codepoint : Nat
  wide : Wide := .narrow
  style : RawStyle := {}
  cellBg : CellBg := .none
deriving DecidableEq

/-- Modelled from the spec: ghostty-vt's `Style.bg`, resolving the style's
own background color against the palette (cell-level background content is
handled separately by `getStyleFromCell`'s `orelse` arm). -/
def RawStyle.bg (style : RawStyle) (palette : Palette) : Option RGB :=
  match style.bg_color with
  | .none => Option.none
  | .palette idx => some (paletteGet palette idx)
  | .rgb c => some c

/-- `getStyleFromCell`: resolves a cell's style to concrete colors and flag
bits; a background equal to the terminal's default background is reported as
absent. -/
def getStyleFromCell (cell : Cell) (palette : Palette)
    (terminal_bg : Option RGB) : CellStyle :=
  let style := cell.style
  let flags : StyleFlags :=
    { bold := style.bold, italic := style.italic, faint := style.faint,
      inverse := style.inverse, strikethrough := style.strikethrough,
      underline := style.underline }
  let fg : Option RGB :=
    match style.fg_color with
    | .none => Option.none
    | .palette idx => some (paletteGet palette idx)
    | .rgb c => some c
  let bg0 : Option RGB :=
    match style.bg palette with
    | some c => some c
    | Option.none =>
        match cell.cellBg with
        | .bgPalette idx => some (paletteGet palette idx)
        | .bgRgb c => some c
        | .none => Option.none
  let bg : Option RGB :=
    match bg0, terminal_bg with
    | some cell_bg, some term_bg =>
        if cell_bg.r = term_bg.r ∧ cell_bg.g = term_bg.g ∧ cell_bg.b = term_bg.b
        then Option.none else some cell_bg
    | o, _ => o
  { fg := fg, bg := bg, flags := flags }

/-! # Span extraction (row walk of `writeJsonOutput`)

The native `writeJsonOutput` walks each row's cells, merging runs of
equally-styled cells into spans.  The accumulating `text_buf` is a fixed
4096-byte buffer: a codepoint whose UTF-8 encoding does not fit is dropped
from the text (while `span_len` keeps counting).  The walk is embedded here
with the span text kept as the list of appended codepoints together with the
`text_len` byte counter. -/

/-- `std.unicode.utf8CodepointSequenceLength` with the `catch 1` of the
native module: UTF-8 byte length of a codepoint, 1 for out-of-range values. -/
def utf8Len (cp : Nat) : Nat :=
  if cp < 0x80 then 1
  else if cp < 0x800 then 2
  else if cp < 0x10000 then 3
  else if cp < 0x110000 then 4
  else 1

/-- One emitted span: the `[text, fg, bg, flags, width]` record. -/
structure Span where
  text : List Nat
  fg : Option RGB
  bg : Option RGB
  flags : StyleFlags
  width : Nat
deriving DecidableEq

/-- The mutable loop state of the row walk in `writeJsonOutput`. -/
structure SpanState where
  spans : List Span
  span_len : Nat
  current_style : Option CellStyle
  text : List Nat
  text_len : Nat
deriving DecidableEq

/-- Initial row-walk state. -/
def SpanState.start : SpanState := ⟨[], 0, none, [], 0⟩

/-- The span-emission block of `writeJsonOutput`: write the accumulated text
as a span carrying the current style, then clear the accumulators. -/
def flushSpan (st : SpanState) : SpanState :=
  match st.current_style with
  | some cs =>
      { st with
        spans := st.spans ++ [⟨st.text, cs.fg, cs.bg, cs.flags, st.span_len⟩],
        text := [], text_len := 0, span_len := 0 }
  | none => st

/-- The per-cell body of the row walk: null codepoints are read as spaces,
the style is resolved, a style change flushes the pending span, the
codepoint is appended when it fits the 4096-byte text buffer, and the span
width advances by the cell width. -/
def processCell (palette : Palette) (terminal_bg : Option RGB)
    (st : SpanState) (cell : Cell) : SpanState :=
  let cp : Nat := if cell.codepoint = 0 then 32 else cell.codepoint
  let style := getStyleFromCell cell palette terminal_bg
  let style_changed : Bool :=
    match st.current_style with
    | some cs => !(CellStyle.eql cs style)
    | none => true
  let st1 := if style_changed ∧ 0 < st.text_len then flushSpan st else st
  let st2 :=
    if style_changed then { st1 with current_style := some style } else st1
  let len := utf8Len cp
  let st3 :=
    if st2.text_len + len ≤ 4096 then
      { st2 with text := st2.text ++ [cp], text_len := st2.text_len + len }
    else st2
  { st3 with span_len := st3.span_len + (if cell.wide = Wide.wide then 2 else 1) }

/-- The cell loop of `writeJsonOutput`: spacer tails are skipped, the loop
breaks at the last content column, every other cell is processed. -/
def spanLoop (palette : Palette) (terminal_bg : Option RGB) :
    List Cell → Nat → Nat → SpanState → SpanState
  | [], _, _, st => st
  | c :: rest, idx, lastCol, st =>
      if c.wide = Wide.spacer_tail then
        spanLoop palette terminal_bg rest (idx + 1) lastCol st
      else if lastCol ≤ idx then st
      else
        spanLoop palette terminal_bg rest (idx + 1) lastCol
          (processCell palette terminal_bg st c)

/-- First pass of `writeJsonOutput`: index one past the last non-spacer cell
with a non-null codepoint (0 when the row has none). -/
def lastContentColAux : List Cell → Nat → Nat → Nat
  | [], _, last => last
  | c :: rest, idx, last =>
      if c.wide = Wide.spacer_tail then lastContentColAux rest (idx + 1) last
      else if c.codepoint ≠ 0 then lastContentColAux rest (idx + 1) (idx + 1)
      else lastContentColAux rest (idx + 1) last

/-- Last content column of a row. -/
def lastContentCol (cells : List Cell) : Nat :=
  lastContentColAux cells 0 0

/-- The spans emitted for one row by `writeJsonOutput`: run the cell loop,
then flush the trailing span when text is pending. -/
def rowSpans (palette : Palette) (terminal_bg : Option RGB)
    (cells : List Cell) : List Span :=
  let lastCol := lastContentCol cells
  let st := spanLoop palette terminal_bg cells 0 lastCol SpanState.start
  if 0 < st.text_len then (flushSpan st).spans else st.spans

/-- The cells a run of the cell loop actually processes, starting at a given
index with a given last content column: spacer tails are skipped and the
walk stops at the last content column. -/
def processedFrom : List Cell → Nat → Nat → List Cell
  | [], _, _ => []
  | c :: rest, idx, lastCol =>
      if c.wide = Wide.spacer_tail then processedFrom rest (idx + 1) lastCol
      else if lastCol ≤ idx then []
      else c :: processedFrom rest (idx + 1) lastCol

/-- The cells of a row that contribute to its spans. -/
def processedCells (cells : List Cell) : List Cell :=
  processedFrom cells 0 (lastContentCol cells)

/-- The codepoint a processed cell contributes to the span text (null cells
read as spaces). -/
def emitCp (c : Cell) : Nat :=
  if c.codepoint = 0 then 32 else c.codepoint

/-- Width a processed cell adds to its span. -/
def cellWidth (c : Cell) : Nat :=
  if c.wide = Wide.wide then 2 else 1

/-! # JSON serialization (byte-level)

Byte-exact embedding of the serialization side of `writeJsonOutput`,
`writeColor` and `writeJsonString`.  Output is a list of bytes. -/

/-- Lowercase hexadecimal digit byte for a value below 16. -/
def hexDigit (n : Nat) : Nat :=
  if n < 10 then 48 + n else 87 + n

/-- Two lowercase hex digits of one byte (`{x:0>2}` in the native module). -/
def hexByte (n : Fin 256) : List Nat :=
  [hexDigit (n.val / 16), hexDigit (n.val % 16)]

/-- `writeColor`: `"#rrggbb"` in lowercase hex (quoted), or `null`. -/
def writeColor : Option RGB → List Nat
  | some c => [34, 35] ++ hexByte c.r ++ hexByte c.g ++ hexByte c.b ++ [34]
  | none => [110, 117, 108, 108]

/-- UTF-8 encoding of a codepoint (the bytes `utf8Encode` writes). -/
def utf8Bytes (cp : Nat) : List Nat :=
  if cp < 0x80 then [cp]
  else if cp < 0x800 then [0xC0 + cp / 64, 0x80 + cp % 64]
  else if cp < 0x10000 then
    [0xE0 + cp / 4096, 0x80 + (cp / 64) % 64, 0x80 + cp % 64]
  else [0xF0 + cp / 262144, 0x80 + (cp / 4096) % 64, 0x80 + (cp / 64) % 64,
    0x80 + cp % 64]

/-- The per-byte escaping of `writeJsonString`. -/
def escapeByte (b : Nat) : List Nat :=
  if b = 34 then [92, 34]
  else if b = 92 then [92, 92]
  else if b = 10 then [92, 110]
  else if b = 13 then [92, 114]
  else if b = 9 then [92, 116]
  else if b < 32 then [92, 117, 48, 48, hexDigit (b / 16), hexDigit (b % 16)]
  else [b]

/-- `writeJsonString` over a span text (codepoints are UTF-8 encoded into the
text buffer before the writer escapes the bytes). -/
def writeJsonString (text : List Nat) : List Nat :=
  [34] ++ ((text.map utf8Bytes).flatten.map escapeByte).flatten ++ [34]

/-- Decimal digits of a natural number, as bytes. -/
def natBytes (n : Nat) : List Nat :=
  (toString n).toList.map Char.toNat

/-- `true` / `false`, as bytes (`{}` formatting of a Zig bool). -/
def boolBytes (b : Bool) : List Nat :=
  if b then [116, 114, 117, 101] else [102, 97, 108, 115, 101]

/-- Bytes of an ASCII string literal. -/
def strBytes (s : String) : List Nat :=
  s.toList.map Char.toNat

/-- Separator-joined concatenation, as emitted by the output loops. -/
def joinSepBy (sep : Nat) : List (List Nat) → List Nat
  | [] => []
  | [x] => x
  | x :: rest => x ++ [sep] ++ joinSepBy sep rest

/-- Comma-separated concatenation. -/
def joinSep (l : List (List Nat)) : List Nat :=
  joinSepBy 44 l

/-- Serialization of one span: the `[text, fg, bg, flags, width]` 5-tuple in
exactly that order. -/
def spanToJson (s : Span) : List Nat :=
  [91] ++ writeJsonString s.text ++ [44] ++ writeColor s.fg ++ [44] ++
    writeColor s.bg ++ [44] ++ natBytes s.flags.toInt ++ [44] ++
    natBytes s.width ++ [93]

/-- Serialization of one row: its spans as a JSON array. -/
def rowToJson (row : List Span) : List Nat :=
  [91] ++ joinSep (row.map spanToJson) ++ [93]

/-! # VT emulator model

The native module drives ghostty-vt's `Terminal` and its `vtStream` parser,
which are not part of the repository sources.  They are modelled here from
the specification: the DEC-derived parser state machine (§3 Parser State,
§4.1), the screen buffer with unbounded scrollback (§3 Screen, §4.2), the
terminal modes (§3), and the screen mutation rules (§4.1).  The model covers
the sequence subset the verified claims exercise (C0 controls, CSI cursor
motion, SGR, SM/RM for DECTCEM and LNM, OSC skipping); other dispatches are
no-ops, which §7 names as the tolerated behavior for unknown sequences.
Multi-byte UTF-8 input decoding is not modelled: bytes at or above 0x20
print as single codepoints. -/

/-- Modelled from the spec: the VT parser states (§3 Parser State).  CSI
entry, parameter and intermediate collection are merged into one state; the
claims under verification only distinguish ground from non-ground. -/
inductive ParserState where
  | ground
  | escape
  | csi
  | osc_string
  | osc_esc
deriving DecidableEq

/-- Modelled from the spec: the parser with its in-progress parameter
accumulator (§3 Parser State). -/
structure VtParser where
  state : ParserState
  params : List Nat
  cur : Nat
  hasCur : Bool
  priv : Bool
  inter : Bool
deriving DecidableEq

/-- Fresh parser in ground state. -/
def VtParser.init : VtParser := ⟨.ground, [], 0, false, false, false⟩

/-- Modelled from the spec: the tracked terminal modes (§3 Terminal Modes);
LNM defaults to enabled, the cursor defaults to visible (DECTCEM). -/
structure Modes where
  linefeed : Bool := true
  cursor_visible : Bool := true
deriving DecidableEq

/-- Modelled from the spec: the screen buffer (§3 Screen): active grid,
unbounded scrollback, cursor; `curX` may equal `cols` (pending wrap). -/
structure ScreenBuf where
  cols : Nat
  rows : Nat
  scrollback : List (List Cell)
  active : List (List Cell)
  curX : Nat
  curY : Nat
deriving DecidableEq

/-- A fresh, never-written cell. -/
def blankCell : Cell := { codepoint := 0 }

/-- A fresh row of `cols` blank cells. -/
def blankRow (cols : Nat) : List Cell := List.replicate cols blankCell

/-- Fresh screen of the given dimensions. -/
def ScreenBuf.init (cols rows : Nat) : ScreenBuf :=
  ⟨cols, rows, [], List.replicate rows (blankRow cols), 0, 0⟩

/-- Modelled from the spec: scrolling moves the top active row into
scrollback and appends a fresh empty row (§4.1 Screen mutation rules). -/
def ScreenBuf.scrollUp (s : ScreenBuf) : ScreenBuf :=
  match s.active with
  | [] => s
  | top :: rest =>
      { s with scrollback := s.scrollback ++ [top],
               active := rest ++ [blankRow s.cols] }

/-- Cursor down one row, scrolling at the bottom margin. -/
def ScreenBuf.cursorDown (s : ScreenBuf) : ScreenBuf :=
  if s.curY + 1 < s.rows then { s with curY := s.curY + 1 }
  else s.scrollUp

/-- Write a cell into the active grid (out-of-range writes are no-ops, as
`List.set` leaves the list unchanged). -/
def ScreenBuf.setCell (s : ScreenBuf) (x y : Nat) (c : Cell) : ScreenBuf :=
  { s with active := s.active.set y ((s.active.getD y []).set x c) }

/-- Modelled from the spec: the whole terminal state owned by one emulator
instance (§3 Persistent Instance): screen, pen style, parser, modes,
palette and default background. -/
structure Term where
  screen : ScreenBuf
  pen : RawStyle
  parser : VtParser
  modes : Modes
  palette : Palette
  background : Option RGB
deriving DecidableEq

/-- Modelled from the spec: a fixed default palette table (the spec fixes
its size, not its entries; no verified claim reads concrete entries). -/
def defaultPalette : Palette := List.replicate 256 ⟨0, 0, 0⟩

/-- Modelled from the spec: ghostty-vt `Terminal.init` — fresh screen,
cursor at the origin, default pen, parser in ground, modes at their
defaults, default palette, no default background color. -/
def Term.init (cols rows : Nat) : Term :=
  ⟨ScreenBuf.init cols rows, {}, VtParser.init, {}, defaultPalette, none⟩

/-- Print one codepoint at the cursor: wrap first on pending wrap, write a
narrow cell carrying the pen style, advance the cursor (§4.1). -/
def Term.printChar (t : Term) (cp : Nat) : Term :=
  let s0 := t.screen
  let s1 :=
    if s0.cols ≤ s0.curX then
      let sw := s0.cursorDown
      { sw with curX := 0 }
    else s0
  let s2 := s1.setCell s1.curX s1.curY
    { codepoint := cp, wide := .narrow, style := t.pen, cellBg := .none }
  { t with screen := { s2 with curX := s2.curX + 1 } }

/-- LF: cursor down (scrolling at the bottom); when LNM is on the column is
also reset (§4.1 C0, §7). -/
def Term.lineFeed (t : Term) : Term :=
  let s := t.screen.cursorDown
  let s := if t.modes.linefeed then { s with curX := 0 } else s
  { t with screen := s }

/-- CR: column reset. -/
def Term.carriageReturn (t : Term) : Term :=
  { t with screen := { t.screen with curX := 0 } }

/-- BS: cursor left without underflow. -/
def Term.backspace (t : Term) : Term :=
  { t with screen := { t.screen with curX := t.screen.curX - 1 } }

/-- HT: advance to the next multiple-of-8 tab stop, clamped to the last
column. -/
def Term.horizontalTab (t : Term) : Term :=
  let s := t.screen
  { t with screen := { s with curX := min (s.cols - 1) (8 * (s.curX / 8) + 8) } }

/-- One SGR parameter that is not a 38/48 extended color introducer. -/
def sgrOne (p : Nat) (st : RawStyle) : RawStyle :=
  if p = 0 then {}
  else if p = 1 then { st with bold := true }
  else if p = 2 then { st with faint := true }
  else if p = 3 then { st with italic := true }
  else if p = 4 then { st with underline := true }
  else if p = 7 then { st with inverse := true }
  else if p = 9 then { st with strikethrough := true }
  else if p = 22 then { st with bold := false, faint := false }
  else if p = 23 then { st with italic := false }
  else if p = 24 then { st with underline := false }
  else if p = 27 then { st with inverse := false }
  else if p = 29 then { st with strikethrough := false }
  else if h : 30 ≤ p ∧ p ≤ 37 then
    { st with fg_color := .palette ⟨p - 30, by omega⟩ }
  else if p = 39 then { st with fg_color := .none }
  else if h : 40 ≤ p ∧ p ≤ 47 then
    { st with bg_color := .palette ⟨p - 40, by omega⟩ }
  else if p = 49 then { st with bg_color := .none }
  else if h : 90 ≤ p ∧ p ≤ 97 then
    { st with fg_color := .palette ⟨p - 90 + 8, by omega⟩ }
  else if h : 100 ≤ p ∧ p ≤ 107 then
    { st with bg_color := .palette ⟨p - 100 + 8, by omega⟩ }
  else st

/-- SGR parameter list interpretation (§4.1): indexed and true-color forms,
then the single-parameter attributes. -/
def sgrApply : List Nat → RawStyle → RawStyle
  | [], st => st
  | 38 :: 5 :: n :: rest, st =>
      sgrApply rest { st with fg_color := .palette ⟨n % 256, Nat.mod_lt _ (by omega)⟩ }
  | 48 :: 5 :: n :: rest, st =>
      sgrApply rest { st with bg_color := .palette ⟨n % 256, Nat.mod_lt _ (by omega)⟩ }
  | 38 :: 2 :: r :: g :: b :: rest, st =>
      sgrApply rest { st with fg_color := .rgb ⟨⟨r % 256, Nat.mod_lt _ (by omega)⟩,
        ⟨g % 256, Nat.mod_lt _ (by omega)⟩, ⟨b % 256, Nat.mod_lt _ (by omega)⟩⟩ }
  | 48 :: 2 :: r :: g :: b :: rest, st =>
      sgrApply rest { st with bg_color := .rgb ⟨⟨r % 256, Nat.mod_lt _ (by omega)⟩,
        ⟨g % 256, Nat.mod_lt _ (by omega)⟩, ⟨b % 256, Nat.mod_lt _ (by omega)⟩⟩ }
  | p :: rest, st => sgrApply rest (sgrOne p st)

/-- First parameter with the VT default of 1 (missing or 0 reads as 1). -/
def firstParam (params : List Nat) : Nat :=
  match params.getD 0 1 with
  | 0 => 1
  | n => n

/-- Cursor move helper: replaces only the cursor coordinates. -/
def Term.setCursor (t : Term) (x y : Nat) : Term :=
  { t with screen := { t.screen with curX := x, curY := y } }

/-- Mode update helper: replaces the cursor-visible mode. -/
def Term.setCursorVisible (t : Term) (v : Bool) : Term :=
  { t with modes := { t.modes with cursor_visible := v } }

/-- Mode update helper: replaces the linefeed mode. -/
def Term.setLinefeed (t : Term) (v : Bool) : Term :=
  { t with modes := { t.modes with linefeed := v } }

/-- Pen update helper. -/
def Term.setPen (t : Term) (p : RawStyle) : Term :=
  { t with pen := p }

/-- The state change a CSI dispatch performs: nothing, a cursor move, a pen
update, or a mode flip. -/
inductive CsiEffect where
  | keep
  | cursor (x y : Nat)
  | pen (p : RawStyle)
  | cursorVisible (v : Bool)
  | linefeedMode (v : Bool)
deriving DecidableEq

/-- CSI dispatch decision (§4.1): cursor motion, CUP, SGR, and SM/RM for
DECTCEM (`?25`) and LNM (`20`); other finals are no-ops. -/
def csiEffect (final : Nat) (params : List Nat) (priv inter : Bool)
    (cols rows curX curY : Nat) (pen : RawStyle) : CsiEffect :=
  if inter then .keep
  else if priv then
    if final = 104 ∧ params = [25] then .cursorVisible true
    else if final = 108 ∧ params = [25] then .cursorVisible false
    else .keep
  else if final = 109 then
    .pen (sgrApply (if params.isEmpty then [0] else params) pen)
  else if final = 72 ∨ final = 102 then
    let row := firstParam params
    let col := match params.getD 1 1 with | 0 => 1 | n => n
    .cursor (min (col - 1) (cols - 1)) (min (row - 1) (rows - 1))
  else if final = 65 then .cursor curX (curY - firstParam params)
  else if final = 66 then
    .cursor curX (min (curY + firstParam params) (rows - 1))
  else if final = 67 then
    .cursor (min (curX + firstParam params) (cols - 1)) curY
  else if final = 68 then .cursor (curX - firstParam params) curY
  else if final = 71 then
    .cursor (min (firstParam params - 1) (cols - 1)) curY
  else if final = 100 then
    .cursor curX (min (firstParam params - 1) (rows - 1))
  else if final = 104 ∧ params = [20] then .linefeedMode true
  else if final = 108 ∧ params = [20] then .linefeedMode false
  else .keep

/-- Apply a CSI effect to the terminal. -/
def Term.applyCsiEffect (t : Term) : CsiEffect → Term
  | .keep => t
  | .cursor x y => t.setCursor x y
  | .pen p => t.setPen p
  | .cursorVisible v => t.setCursorVisible v
  | .linefeedMode v => t.setLinefeed v

/-- CSI dispatch on the terminal state. -/
def Term.csiDispatch (t : Term) (final : Nat) (params : List Nat)
    (priv : Bool) (inter : Bool) : Term :=
  t.applyCsiEffect (csiEffect final params priv inter t.screen.cols
    t.screen.rows t.screen.curX t.screen.curY t.pen)

/-- Collected parameter list at dispatch time: the accumulated parameters
plus the current accumulator (an empty trailing accumulator after a
separator reads as 0). -/
def VtParser.finishParams (p : VtParser) : List Nat :=
  if p.params.isEmpty ∧ p.hasCur = false then [] else p.params ++ [p.cur]

/-- One byte of the DEC-derived state machine (§4.1, §9 State-machine
first): C0 controls and printing in ground, escape dispatch, CSI parameter
collection and dispatch, OSC skipping terminated by BEL or ST. -/
def Term.step (t : Term) (b : Nat) : Term :=
  match t.parser.state with
  | .ground =>
      if b = 27 then { t with parser := { t.parser with state := .escape } }
      else if b = 10 then t.lineFeed
      else if b = 13 then t.carriageReturn
      else if b = 8 then t.backspace
      else if b = 9 then t.horizontalTab
      else if b < 32 then t
      else t.printChar b
  | .escape =>
      if b = 91 then { t with parser := { VtParser.init with state := .csi } }
      else if b = 93 then
        { t with parser := { VtParser.init with state := .osc_string } }
      else { t with parser := VtParser.init }
  | .csi =>
      if 48 ≤ b ∧ b ≤ 57 then
        { t with parser := { t.parser with
            cur := t.parser.cur * 10 + (b - 48), hasCur := true } }
      else if b = 59 ∨ b = 58 then
        { t with parser := { t.parser with
            params := t.parser.params ++ [t.parser.cur],
            cur := 0, hasCur := false } }
      else if 60 ≤ b ∧ b ≤ 63 then
        { t with parser := { t.parser with priv := true } }
      else if 32 ≤ b ∧ b ≤ 47 then
        { t with parser := { t.parser with inter := true } }
      else if 64 ≤ b ∧ b ≤ 126 then
        { (t.csiDispatch b t.parser.finishParams t.parser.priv t.parser.inter)
          with parser := VtParser.init }
      else t
  | .osc_string =>
      if b = 7 then { t with parser := VtParser.init }
      else if b = 27 then { t with parser := { t.parser with state := .osc_esc } }
      else t
  | .osc_esc => { t with parser := VtParser.init }

/-- `ReadonlyStream.nextSlice`: consume a byte slice in order against the
retained parser state. -/
def nextSlice (t : Term) (data : List Nat) : Term :=
  data.foldl Term.step t

/-! # Persistent terminal wrapper (native module) -/

/-- Modelled from the spec: ghostty-vt `Terminal.fullReset` as §4.1 `reset()`
describes it: clears the active screen, cursor to (0,0), clears scrollback,
all modes back to their defaults, palette back to defaults, parser to
ground — i.e. a fresh terminal of the same dimensions. -/
def Term.fullReset (t : Term) : Term :=
  Term.init t.screen.cols t.screen.rows

namespace PersistentTerminal

/-- `PersistentTerminal.init`: ghostty `Terminal.init` with unbounded
scrollback, then linefeed mode enabled so LF also performs carriage
return. -/
def init (cols rows : Nat) : Term :=
  let terminal := Term.init cols rows
  { terminal with modes := { terminal.modes with linefeed := true } }

/-- `PersistentTerminal.feed`: the persistent stream consumes the chunk,
retaining parser state across calls. -/
def feed (t : Term) (data : List Nat) : Term :=
  nextSlice t data

/-- `PersistentTerminal.isReady`: the stream's parser is in ground state. -/
def isReady (t : Term) : Bool :=
  t.parser.state = ParserState.ground

/-- `PersistentTerminal.resize` (ghostty `Terminal.resize`, modelled from
the spec §4.1: grid dimensions change, cursor clamped, scrollback
preserved; no reflow — new cells default-filled, old cells clipped). -/
def resize (t : Term) (cols rows : Nat) : Term :=
  let s := t.screen
  let resizeRow : List Cell → List Cell := fun row =>
    row.take cols ++ List.replicate (cols - row.length) blankCell
  { t with screen :=
      { cols := cols, rows := rows,
        scrollback := s.scrollback.map resizeRow,
        active := ((s.active.map resizeRow).take rows) ++
          List.replicate (rows - s.active.length) (blankRow cols),
        curX := min s.curX (cols - 1),
        curY := min s.curY (rows - 1) } }

/-- `PersistentTerminal.reset`: `fullReset` then the stream is recreated, so
the parser starts fresh in ground. -/
def reset (t : Term) : Term :=
  let t2 := t.fullReset
  { t2 with parser := VtParser.init }

end PersistentTerminal

/-! # Extraction over a terminal -/

/-- The row iteration order shared by all consumers: oldest scrollback row
first, then the active rows (§4.2 `rows()`). -/
def Term.allRows (t : Term) : List (List Cell) :=
  t.screen.scrollback ++ t.screen.active

/-- `countLines`: total number of rows the iterator yields. -/
def countLines (t : Term) : Nat :=
  t.allRows.length

/-- The counting loop of `hasEnoughLines`: early-exits once the running
count reaches the threshold. -/
def hasEnoughAux : List (List Cell) → Nat → Nat → Bool
  | [], _, _ => false
  | _ :: rest, count, threshold =>
      if threshold ≤ count + 1 then true
      else hasEnoughAux rest (count + 1) threshold

/-- `hasEnoughLines`: the screen yields at least `threshold` rows
(O(threshold), not O(total)). -/
def hasEnoughLines (t : Term) (threshold : Nat) : Bool :=
  hasEnoughAux t.allRows 0 threshold

/-- The structured content of one `writeJsonOutput` document. -/
structure TermDoc where
  cols : Nat
  rows : Nat
  cursor : Nat × Nat
  cursorVisible : Bool
  offset : Nat
  totalLines : Nat
  lines : List (List Span)
deriving DecidableEq

/-- Row cap of the output loop: all rows when no limit, else the first
`lim`. -/
def takeLimit (lim : Option Nat) (l : List (List Cell)) : List (List Cell) :=
  match lim with
  | none => l
  | some n => l.take n

/-- The document `writeJsonOutput` serializes: header fields read from the
terminal, and per-row spans for the rows surviving `offset` and `limit`. -/
def extractDoc (t : Term) (offset : Nat) (lim : Option Nat) : TermDoc :=
  { cols := t.screen.cols, rows := t.screen.rows,
    cursor := (t.screen.curX, t.screen.curY),
    cursorVisible := t.modes.cursor_visible,
    offset := offset, totalLines := countLines t,
    lines := (takeLimit lim (t.allRows.drop offset)).map
      (rowSpans t.palette t.background) }

/-- Byte-exact rendering of a document, mirroring the writer calls of
`writeJsonOutput` field for field. -/
def renderDoc (d : TermDoc) : List Nat :=
  strBytes "\x7b\"cols\":" ++ natBytes d.cols ++
    strBytes ",\"rows\":" ++ natBytes d.rows ++
    strBytes ",\"cursor\":[" ++ natBytes d.cursor.1 ++ [44] ++
    natBytes d.cursor.2 ++
    strBytes "],\"cursorVisible\":" ++ boolBytes d.cursorVisible ++
    strBytes ",\"offset\":" ++ natBytes d.offset ++
    strBytes ",\"totalLines\":" ++ natBytes d.totalLines ++
    strBytes ",\"lines\":[" ++ joinSep (d.lines.map rowToJson) ++
    strBytes "]\x7d"

/-- `writeJsonOutput`: the native module interleaves extraction and
serialization in one pass; the embedding factors it as extracting the
structured document and rendering it. -/
def writeJsonOutput (t : Term) (offset : Nat) (lim : Option Nat) : List Nat :=
  renderDoc (extractDoc t offset lim)

/-! # Stateless entry point `ptyToJson` (native module) -/

/-- The 4 KiB chunk size of the limited-feed loop. -/
def chunkSize : Nat := 4096

/-- The chunked feed loop of `ptyToJson` when a limit is active: feed one
chunk, then stop as soon as the parser is in ground state and the screen
already yields `threshold` rows. -/
def feedLoop (t : Term) (rest : List Nat) (threshold : Nat) : Term :=
  match rest with
  | [] => t
  | b0 :: tail =>
      let chunk := (b0 :: tail).take chunkSize
      let rest2 := (b0 :: tail).drop chunkSize
      let t2 := nextSlice t chunk
      if t2.parser.state = ParserState.ground ∧ hasEnoughLines t2 threshold
      then t2
      else feedLoop t2 rest2 threshold
termination_by rest.length
decreasing_by
  simp only [List.length_drop, List.length_cons, chunkSize]
  omega

/-- `ptyToJson` (native): transient terminal with linefeed mode enabled; a
zero limit means no limit; with a limit the input is fed in chunks with the
early exit at threshold `limit + offset + 20`; the document is then
extracted.  This is the structured form; `ptyToJson` below renders it. -/
def ptyToJsonDoc (input : List Nat) (cols rows offset limit : Nat) : TermDoc :=
  let lim : Option Nat := if limit = 0 then none else some limit
  let t0 := Term.init cols rows
  let t0 := { t0 with modes := { t0.modes with linefeed := true } }
  let t :=
    match lim with
    | some line_limit => feedLoop t0 input (line_limit + offset + 20)
    | none => nextSlice t0 input
  extractDoc t offset lim

/-- `ptyToJson` (native): the serialized JSON bytes. -/
def ptyToJson (input : List Nat) (cols rows offset limit : Nat) : List Nat :=
  renderDoc (ptyToJsonDoc input cols rows offset limit)

/-! # TypeScript wrapper `ptyToJson` (tui/ffi.ts) -/

/-- The `TerminalData` shape the TypeScript wrapper returns (it carries no
`cursorVisible` field). -/
structure FfiTerminalData where
  cols : Nat
  rows : Nat
  cursor : Nat × Nat
  offset : Nat
  totalLines : Nat
  lines : List (List Span)
deriving DecidableEq

/-- The wrapper's reshaping of a parsed native document. -/
def docToFfi (d : TermDoc) : FfiTerminalData :=
  ⟨d.cols, d.rows, d.cursor, d.offset, d.totalLines, d.lines⟩

/-- `ptyToJson` (tui/ffi.ts): empty input short-circuits to a fixed document
without calling the native module; otherwise the native document is parsed
and reshaped.  (The JSON stringify/parse round trip of the native boundary
is represented by passing the structured document through.) -/
def ffiPtyToJson (input : List Nat) (cols rows offset limit : Nat) :
    FfiTerminalData :=
  if input.isEmpty then
    { cols := cols, rows := rows, cursor := (0, 0), offset := offset,
      totalLines := 0, lines := [] }
  else docToFfi (ptyToJsonDoc input cols rows offset limit)

/-! # Persistent-instance registry (native module)

The registry is a mutex-guarded `AutoHashMap(u32, *PersistentTerminal)`;
it is embedded as an association list with hash-map put/remove semantics.
Fallible operations return the error alongside the (possibly updated)
registry. -/

/-- Registry of persistent terminals, keyed by caller-chosen id. -/
abbrev Registry : Type := List (Nat × Term)

/-- Registry errors. -/
inductive RegErr where
  | TerminalNotFound
deriving DecidableEq

/-- `map.get`: first entry with the id. -/
def regGet (reg : Registry) (id : Nat) : Option Term :=
  match reg.find? (fun e => e.1 = id) with
  | some e => some e.2
  | none => none

/-- `map.remove`: drop the entry with the id. -/
def regRemove (reg : Registry) (id : Nat) : Registry :=
  reg.filter (fun e => e.1 ≠ id)

/-- `map.put`: replace-or-insert. -/
def regPut (reg : Registry) (id : Nat) (t : Term) : Registry :=
  regRemove reg id ++ [(id, t)]

/-- `createTerminal`: an existing instance under the id is destroyed first,
then a fresh instance is stored. -/
def createTerminal (reg : Registry) (id cols rows : Nat) : Registry :=
  let reg1 :=
    match regGet reg id with
    | some _ => regRemove reg id
    | none => reg
  regPut reg1 id (PersistentTerminal.init cols rows)

/-- `destroyTerminal`: drop the instance; a no-op when absent. -/
def destroyTerminal (reg : Registry) (id : Nat) : Registry :=
  match regGet reg id with
  | some _ => regRemove reg id
  | none => reg

/-- `feedTerminal`: feed bytes to the instance; `TerminalNotFound` when the
id is absent. -/
def feedTerminal (reg : Registry) (id : Nat) (data : List Nat) :
    Except RegErr Unit × Registry :=
  match regGet reg id with
  | none => (.error .TerminalNotFound, reg)
  | some term => (.ok (), regPut reg id (PersistentTerminal.feed term data))

/-- `resizeTerminal`. -/
def resizeTerminal (reg : Registry) (id cols rows : Nat) :
    Except RegErr Unit × Registry :=
  match regGet reg id with
  | none => (.error .TerminalNotFound, reg)
  | some term => (.ok (), regPut reg id (PersistentTerminal.resize term cols rows))

/-- `resetTerminal`. -/
def resetTerminal (reg : Registry) (id : Nat) :
    Except RegErr Unit × Registry :=
  match regGet reg id with
  | none => (.error .TerminalNotFound, reg)
  | some term => (.ok (), regPut reg id (PersistentTerminal.reset term))

/-- `getTerminalJson`: a zero limit means no limit. -/
def getTerminalJson (reg : Registry) (id offset limit : Nat) :
    Except RegErr (List Nat) × Registry :=
  match regGet reg id with
  | none => (.error .TerminalNotFound, reg)
  | some term =>
      (.ok (writeJsonOutput term offset (if limit = 0 then none else some limit)),
        reg)

/-- Plain-text projection of one row, modelled from the spec §4.3: the row
trimmed of trailing nulls, null codepoints read as spaces.  (The ghostty
`TerminalFormatter` is not part of the sources.) -/
def rowPlainText (row : List Cell) : List Nat :=
  ((row.take (lastContentCol row)).filter
    (fun c => c.wide ≠ Wide.spacer_tail)).map emitCp

/-- `getTerminalText`: plain-text projection, rows separated by LF
(modelled from the spec §4.3). -/
def getTerminalText (reg : Registry) (id : Nat) :
    Except RegErr (List Nat) × Registry :=
  match regGet reg id with
  | none => (.error .TerminalNotFound, reg)
  | some term => (.ok (joinSepBy 10 (term.allRows.map rowPlainText)), reg)

/-- `getTerminalCursor`: `[x,y]` as bytes. -/
def getTerminalCursor (reg : Registry) (id : Nat) :
    Except RegErr (List Nat) × Registry :=
  match regGet reg id with
  | none => (.error .TerminalNotFound, reg)
  | some term =>
      (.ok ([91] ++ natBytes term.screen.curX ++ [44] ++
        natBytes term.screen.curY ++ [93]), reg)

/-- `isTerminalReady`. -/
def isTerminalReady (reg : Registry) (id : Nat) :
    Except RegErr Bool × Registry :=
  match regGet reg id with
  | none => (.error .TerminalNotFound, reg)
  | some term => (.ok (PersistentTerminal.isReady term), reg)

/-! # Definitions supporting the claim statements -/

/-- Feeding a list of chunks in order to one persistent instance. -/
def feedChunks (t : Term) (chunks : List (List Nat)) : Term :=
  chunks.foldl PersistentTerminal.feed t

/-- The spec's numeric encoding of an attribute set: the six weights
combined by bitwise OR. -/
def flagsSpecOr (f : StyleFlags) : Nat :=
  (cond f.bold 1 0) ||| (cond f.italic 2 0) ||| (cond f.underline 4 0) |||
    (cond f.strikethrough 8 0) ||| (cond f.inverse 16 0) ||| (cond f.faint 32 0)

/-- A lowercase hexadecimal digit byte. -/
def isLowerHexDigit (b : Nat) : Bool :=
  (48 ≤ b && b ≤ 57) || (97 ≤ b && b ≤ 102)

/-- A rendered color is either the bytes of `null` or a quoted lowercase
`#rrggbb` hex string. -/
def colorBytesOk (bs : List Nat) : Bool :=
  bs == strBytes "null" ||
    (bs.length == 9 && bs.getD 0 0 == 34 && bs.getD 1 0 == 35 &&
      ((List.range 6).all fun i => isLowerHexDigit (bs.getD (2 + i) 0)) &&
      bs.getD 8 0 == 34)

/-- All span colors of a document render as `null` or lowercase hex. -/
def allColorsOk (d : TermDoc) : Bool :=
  d.lines.all fun row => row.all fun s =>
    colorBytesOk (writeColor s.fg) && colorBytesOk (writeColor s.bg)

/-- Total UTF-8 byte length the processed cells of a row ask of the span
text buffer. -/
def utf8TotalLen (cells : List Cell) : Nat :=
  (cells.map (fun c => utf8Len (emitCp c))).sum

/-- Sum of the emitted span widths of a row. -/
def sumWidths (spans : List Span) : Nat :=
  (spans.map Span.width).sum

/-- Concatenated text of the emitted spans of a row. -/
def joinedText (spans : List Span) : List Nat :=
  (spans.map Span.text).flatten

/-- The six flag bits form a finite type. -/
instance : Fintype StyleFlags :=
  Fintype.ofEquiv (Bool × Bool × Bool × Bool × Bool × Bool)
    { toFun := fun x =>
        ⟨x.1, x.2.1, x.2.2.1, x.2.2.2.1, x.2.2.2.2.1, x.2.2.2.2.2⟩
      invFun := fun f =>
        ⟨f.bold, f.italic, f.underline, f.strikethrough, f.inverse, f.faint⟩
      left_inv := fun _ => rfl
      right_inv := fun _ => rfl }

/-- The style triple a span carries. -/
def styleOfSpan (s : Span) : CellStyle :=
  ⟨s.fg, s.bg, s.flags⟩

/-- The spans a row-walk state stands for: the flushed spans plus the
pending one when text is accumulating. -/
def pendingSpans (st : SpanState) : List Span :=
  st.spans ++
    (match st.current_style with
     | some cs =>
         if 0 < st.text_len then
           [⟨st.text, cs.fg, cs.bg, cs.flags, st.span_len⟩]
         else []
     | none => [])

/-- No two adjacent spans carry the same style triple. -/
def spansOk (l : List Span) : Prop :=
  List.Chain' (· ≠ ·) (l.map styleOfSpan)

/-- Invariant of the row walk: the state is either untouched or carries
accumulating text under a known current style with a well-formed span
chain. -/
def SpanInv (st : SpanState) : Prop :=
  st = SpanState.start ∨
    (0 < st.text_len ∧ st.current_style.isSome ∧ spansOk (pendingSpans st))

/-- All text a row-walk state has accumulated: flushed span texts plus the
pending text. -/
def stText (st : SpanState) : List Nat :=
  joinedText st.spans ++ st.text

/-- All width a row-walk state has accumulated: flushed span widths plus the
pending span width. -/
def stWidth (st : SpanState) : Nat :=
  sumWidths st.spans + st.span_len

/-! # Definitions for the concrete counterexamples -/

/-- An ASCII `a` cell with the default style. -/
def aCell : Cell := { codepoint := 97 }

/-- An ASCII `b` cell with the default style. -/
def bCell : Cell := { codepoint := 98 }

/-- A row whose single span would need 4098 text bytes: 4096 `a` cells,
one never-written cell, then a `b` cell. -/
def bigRow : List Cell :=
  List.replicate 4096 aCell ++ [blankCell, bCell]

/-- `k` copies of the no-op SGR reset sequence `ESC [ m`. -/
def escRep : Nat → List Nat
  | 0 => []
  | k + 1 => 27 :: 91 :: 109 :: escRep k

/-- `Hello` bytes. -/
def helloBytes : List Nat := [72, 101, 108, 108, 111]

/-- A 4096-byte first chunk: `Hello`, 1363 no-op SGR sequences, `XY`. -/
def cexChunk : List Nat := helloBytes ++ (escRep 1363 ++ [88, 89])

/-- Input whose bytes past the first 4096-byte chunk rewrite row 0:
the chunk above followed by `CR Z`. -/
def cexInput : List Nat := cexChunk ++ [13, 90]

/-! # General lemmas -/

/-- Feeding a concatenation equals feeding the parts in order. -/
theorem nextSlice_append (t : Term) (a b : List Nat) :
    nextSlice t (a ++ b) = nextSlice (nextSlice t a) b := by
  simp [nextSlice, List.foldl_append]

/-! # C1: chunk invariance -/

/-- C1: For every byte sequence and every partition of it into chunks,
feeding the chunks in order to a single persistent instance produces the
same final terminal state (screen included) as feeding the whole sequence
in one `feed` call, because the parser state is retained in the instance
across `feed` calls. -/
theorem chunk_invariance (t : Term) (chunks : List (List Nat)) :
    feedChunks t chunks = PersistentTerminal.feed t chunks.flatten := by
  induction chunks generalizing t with
  | nil => simp [feedChunks, PersistentTerminal.feed, nextSlice]
  | cons c rest ih =>
      show feedChunks (PersistentTerminal.feed t c) rest =
        PersistentTerminal.feed t (c ++ rest.flatten)
      rw [ih (PersistentTerminal.feed t c)]
      simp [PersistentTerminal.feed, nextSlice_append]

/-! # Screen-shape preservation -/

theorem scrollUp_shape (s : ScreenBuf) :
    s.scrollUp.cols = s.cols ∧ s.scrollUp.rows = s.rows ∧
      s.scrollUp.active.length = s.active.length := by
  unfold ScreenBuf.scrollUp
  split
  · exact ⟨rfl, rfl, rfl⟩
  · next top rest h => exact ⟨rfl, rfl, by simp [h]⟩

theorem cursorDown_shape (s : ScreenBuf) :
    s.cursorDown.cols = s.cols ∧ s.cursorDown.rows = s.rows ∧
      s.cursorDown.active.length = s.active.length := by
  unfold ScreenBuf.cursorDown
  split
  · exact ⟨rfl, rfl, rfl⟩
  · exact scrollUp_shape s

theorem setCell_shape (s : ScreenBuf) (x y : Nat) (c : Cell) :
    (s.setCell x y c).cols = s.cols ∧ (s.setCell x y c).rows = s.rows ∧
      (s.setCell x y c).active.length = s.active.length := by
  unfold ScreenBuf.setCell
  exact ⟨rfl, rfl, by simp⟩

theorem printChar_shape (t : Term) (cp : Nat) :
    (t.printChar cp).screen.cols = t.screen.cols ∧
      (t.printChar cp).screen.rows = t.screen.rows ∧
      (t.printChar cp).screen.active.length = t.screen.active.length := by
  by_cases h : t.screen.cols ≤ t.screen.curX <;>
    simp [Term.printChar, h, ScreenBuf.setCell, (cursorDown_shape t.screen).1,
      (cursorDown_shape t.screen).2.1, (cursorDown_shape t.screen).2.2]

theorem lineFeed_shape (t : Term) :
    t.lineFeed.screen.cols = t.screen.cols ∧
      t.lineFeed.screen.rows = t.screen.rows ∧
      t.lineFeed.screen.active.length = t.screen.active.length := by
  by_cases h : t.modes.linefeed <;>
    simp [Term.lineFeed, h, (cursorDown_shape t.screen).1,
      (cursorDown_shape t.screen).2.1, (cursorDown_shape t.screen).2.2]

theorem csiDispatch_screen_shape (t : Term) (final : Nat) (params : List Nat)
    (priv inter : Bool) :
    (t.csiDispatch final params priv inter).screen.cols = t.screen.cols ∧
      (t.csiDispatch final params priv inter).screen.rows = t.screen.rows ∧
      (t.csiDispatch final params priv inter).screen.active.length =
        t.screen.active.length := by
  unfold Term.csiDispatch
  cases csiEffect final params priv inter t.screen.cols t.screen.rows
      t.screen.curX t.screen.curY t.pen <;>
    exact ⟨rfl, rfl, rfl⟩

theorem step_screen_shape (t : Term) (b : Nat) :
    (t.step b).screen.cols = t.screen.cols ∧
      (t.step b).screen.rows = t.screen.rows ∧
      (t.step b).screen.active.length = t.screen.active.length := by
  unfold Term.step
  split
  · split_ifs
    · exact ⟨rfl, rfl, rfl⟩
    · exact lineFeed_shape t
    · exact ⟨rfl, rfl, rfl⟩
    · exact ⟨rfl, rfl, rfl⟩
    · exact ⟨rfl, rfl, rfl⟩
    · exact ⟨rfl, rfl, rfl⟩
    · exact printChar_shape t b
  · split_ifs <;> exact ⟨rfl, rfl, rfl⟩
  · split_ifs
    · exact ⟨rfl, rfl, rfl⟩
    · exact ⟨rfl, rfl, rfl⟩
    · exact ⟨rfl, rfl, rfl⟩
    · exact ⟨rfl, rfl, rfl⟩
    · exact csiDispatch_screen_shape t b _ _ _
    · exact ⟨rfl, rfl, rfl⟩
  · split_ifs <;> exact ⟨rfl, rfl, rfl⟩
  · exact ⟨rfl, rfl, rfl⟩

theorem nextSlice_screen_shape (t : Term) (data : List Nat) :
    (nextSlice t data).screen.cols = t.screen.cols ∧
      (nextSlice t data).screen.rows = t.screen.rows ∧
      (nextSlice t data).screen.active.length = t.screen.active.length := by
  induction data generalizing t with
  | nil => exact ⟨rfl, rfl, rfl⟩
  | cons b rest ih =>
      have h1 := step_screen_shape t b
      have h2 := ih (t.step b)
      refine ⟨?_, ?_, ?_⟩ <;>
        simp only [nextSlice, List.foldl_cons] at h2 ⊢ <;>
        omega

/-! # C7: reset behavior -/

/-- `reset` leaves exactly a fresh terminal of the same dimensions. -/
theorem reset_eq_init (t : Term) :
    PersistentTerminal.reset t = Term.init t.screen.cols t.screen.rows := rfl

/-- Enabling linefeed mode at creation is the model's default already. -/
theorem pinit_eq_init (cols rows : Nat) :
    PersistentTerminal.init cols rows = Term.init cols rows := rfl

/-- C7: `reset` is idempotent; feeding any bytes and then calling `reset`
yields exactly the state of a freshly created instance; and since reset
restores the mode defaults with LNM enabled, a bare LF fed right after a
reset resets the column to 0. -/
theorem reset_behavior :
    (∀ t : Term, PersistentTerminal.reset (PersistentTerminal.reset t) =
      PersistentTerminal.reset t)
    ∧ (∀ (cols rows : Nat) (data : List Nat),
        PersistentTerminal.reset
          (PersistentTerminal.feed (PersistentTerminal.init cols rows) data) =
        PersistentTerminal.init cols rows)
    ∧ (∀ t : Term, (PersistentTerminal.reset t).modes.linefeed = true ∧
        (PersistentTerminal.feed (PersistentTerminal.reset t) [10]).screen.curX
          = 0) := by
  refine ⟨fun t => rfl, fun cols rows data => ?_, fun t => ⟨rfl, ?_⟩⟩
  · have h := nextSlice_screen_shape (PersistentTerminal.init cols rows) data
    rw [reset_eq_init]
    show Term.init (nextSlice (PersistentTerminal.init cols rows) data).screen.cols
        (nextSlice (PersistentTerminal.init cols rows) data).screen.rows =
      PersistentTerminal.init cols rows
    rw [h.1, h.2.1]
    rfl
  · rfl

/-! # C8: is_ready -/

/-- C8: `is_ready` is true exactly when the parser is in ground state; from
ground, feeding any non-escape byte keeps the instance ready; feeding the
partial escape sequence `ESC [ 3` leaves it not ready, and feeding the
remaining bytes `1 m` of the sequence transitions it back to ready. -/
theorem is_ready_correct :
    (∀ t : Term, PersistentTerminal.isReady t = true ↔
      t.parser.state = ParserState.ground)
    ∧ (∀ (t : Term) (b : Nat), t.parser.state = ParserState.ground → b ≠ 27 →
        PersistentTerminal.isReady (PersistentTerminal.feed t [b]) = true)
    ∧ PersistentTerminal.isReady
        (PersistentTerminal.feed (PersistentTerminal.init 80 24) [27, 91, 51])
        = false
    ∧ PersistentTerminal.isReady
        (PersistentTerminal.feed
          (PersistentTerminal.feed (PersistentTerminal.init 80 24) [27, 91, 51])
          [49, 109]) = true := by
  refine ⟨fun t => by simp [PersistentTerminal.isReady], ?_, by decide, by decide⟩
  intro t b hg hb
  show PersistentTerminal.isReady (Term.step t b) = true
  unfold Term.step
  rw [hg]
  simp only []
  split_ifs with h1 h2 h3 h4 h5 h6
  · exact absurd h1 hb
  · simpa [PersistentTerminal.isReady, Term.lineFeed] using hg
  · simpa [PersistentTerminal.isReady, Term.carriageReturn] using hg
  · simpa [PersistentTerminal.isReady, Term.backspace] using hg
  · simpa [PersistentTerminal.isReady, Term.horizontalTab] using hg
  · simpa [PersistentTerminal.isReady] using hg
  · simpa [PersistentTerminal.isReady, Term.printChar] using hg

/-! # C10: ffi empty-input shortcut and total lines -/

/-- The chunked feed loop never changes the number of active rows. -/
theorem feedLoop_active : ∀ (rest : List Nat) (t : Term) (th : Nat),
    (feedLoop t rest th).screen.active.length = t.screen.active.length
  | [], _, _ => by rw [feedLoop]
  | b0 :: tail, t, th => by
      rw [feedLoop]
      split
      · exact (nextSlice_screen_shape t _).2.2
      · rw [feedLoop_active ((b0 :: tail).drop chunkSize)
          (nextSlice t ((b0 :: tail).take chunkSize)) th]
        exact (nextSlice_screen_shape t _).2.2
termination_by rest => rest.length
decreasing_by
  simp only [List.length_drop, List.length_cons, chunkSize]
  omega

/-- The document a stateless `ptyToJson` run extracts reports the screen's
full row count. -/
theorem extractDoc_totalLines (t : Term) (o : Nat) (lim : Option Nat) :
    (extractDoc t o lim).totalLines =
      t.screen.scrollback.length + t.screen.active.length := by
  simp [extractDoc, countLines, Term.allRows]

/-- The terminal a `ptyToJson` run feeds always keeps `rows` active rows. -/
theorem ptyToJson_total_ge (input : List Nat) (cols rows offset limit : Nat) :
    rows ≤ (ptyToJsonDoc input cols rows offset limit).totalLines := by
  unfold ptyToJsonDoc
  rw [extractDoc_totalLines]
  by_cases hl : limit = 0
  · simp only [hl, eq_self_iff_true, if_true]
    rw [(nextSlice_screen_shape _ input).2.2]
    simp [Term.init, ScreenBuf.init]
  · simp only [if_neg hl]
    rw [feedLoop_active input _ (limit + offset + 20)]
    simp [Term.init, ScreenBuf.init]

/-- C10: empty input short-circuits in the TypeScript wrapper to a fixed
document (cursor `[0,0]`, `totalLines` 0, empty `lines`) without invoking
the native emulator, while for any non-empty input every active-screen row
is enumerated, so `totalLines` is at least `rows`. -/
theorem ffi_empty_shortcut :
    (∀ cols rows offset limit : Nat,
      ffiPtyToJson [] cols rows offset limit =
        { cols := cols, rows := rows, cursor := (0, 0), offset := offset,
          totalLines := 0, lines := [] })
    ∧ (∀ (input : List Nat) (cols rows offset limit : Nat), input ≠ [] →
        rows ≤ (ffiPtyToJson input cols rows offset limit).totalLines) := by
  refine ⟨fun cols rows offset limit => rfl, ?_⟩
  intro input cols rows offset limit h
  unfold ffiPtyToJson
  rw [if_neg (by simpa [List.isEmpty_iff] using h)]
  exact ptyToJson_total_ge input cols rows offset limit

/-- Witness for the hypotheses of `ffi_empty_shortcut`: a concrete
non-empty input. -/
theorem ffi_empty_shortcut_witness :
    ([65] : List Nat) ≠ [] ∧ 2 ≤ (ffiPtyToJson [65] 3 2 0 0).totalLines :=
  ⟨by decide, ffi_empty_shortcut.2 [65] 3 2 0 0 (by decide)⟩

/-- Witness for the hypotheses of `is_ready_correct`: a concrete ground
instance and non-escape byte. -/
theorem is_ready_correct_witness :
    (Term.init 3 3).parser.state = ParserState.ground ∧ (65 : Nat) ≠ 27 ∧
      PersistentTerminal.isReady (PersistentTerminal.feed (Term.init 3 3) [65])
        = true :=
  ⟨rfl, by decide, is_ready_correct.2.1 (Term.init 3 3) 65 rfl (by decide)⟩

/-! # C9: registry operations -/

theorem regGet_cons (e : Nat × Term) (reg : Registry) (j : Nat) :
    regGet (e :: reg) j = if e.1 = j then some e.2 else regGet reg j := by
  by_cases h : e.1 = j <;>
    simp [regGet, List.find?_cons_of_pos, List.find?_cons_of_neg, h]

/-- Removal leaves lookups of other ids unchanged. -/
theorem regGet_regRemove_ne (reg : Registry) (id j : Nat) (h : j ≠ id) :
    regGet (regRemove reg id) j = regGet reg j := by
  induction reg with
  | nil => rfl
  | cons e rest ih =>
      by_cases he : e.1 = id
      · have hej : ¬ e.1 = j := fun hh => h (by rw [← hh, he])
        have hij : ¬ (id = j) := fun hh => h hh.symm
        simp [regRemove, List.filter_cons, he, regGet_cons, hej, hij]
        simpa [regRemove] using ih
      · simp only [regRemove, List.filter_cons]
        rw [if_pos (by simpa using he)]
        rw [regGet_cons, regGet_cons]
        by_cases hej : e.1 = j
        · simp [hej]
        · simp only [if_neg hej]
          simpa [regRemove] using ih

/-- Removal erases the id's entry. -/
theorem regGet_regRemove_self (reg : Registry) (id : Nat) :
    regGet (regRemove reg id) id = none := by
  induction reg with
  | nil => rfl
  | cons e rest ih =>
      by_cases he : e.1 = id
      · simpa [regRemove, List.filter_cons, he] using ih
      · simp only [regRemove, List.filter_cons]
        rw [if_pos (by simpa using he)]
        rw [regGet_cons, if_neg he]
        simpa [regRemove] using ih

/-- Put stores the instance under the id. -/
theorem regGet_regPut_self (reg : Registry) (id : Nat) (t : Term) :
    regGet (regPut reg id t) id = some t := by
  induction reg with
  | nil => simp [regPut, regRemove, regGet_cons]
  | cons e rest ih =>
      by_cases he : e.1 = id
      · simpa [regPut, regRemove, List.filter_cons, he] using ih
      · simp only [regPut, regRemove, List.filter_cons]
        rw [if_pos (by simpa using he)]
        rw [List.cons_append, regGet_cons, if_neg he]
        simpa [regPut, regRemove] using ih

/-- Put leaves lookups of other ids unchanged. -/
theorem regGet_regPut_ne (reg : Registry) (id j : Nat) (t : Term) (h : j ≠ id) :
    regGet (regPut reg id t) j = regGet reg j := by
  induction reg with
  | nil =>
      simp only [regPut, regRemove, List.filter_nil, List.nil_append,
        regGet_cons]
      rw [if_neg (fun hh => h hh.symm)]
  | cons e rest ih =>
      by_cases he : e.1 = id
      · have hej : ¬ e.1 = j := fun hh => h (by rw [← hh, he])
        simp only [regPut, regRemove, List.filter_cons]
        rw [if_neg (by simpa using he)]
        rw [regGet_cons, if_neg hej]
        simpa [regPut, regRemove] using ih
      · simp only [regPut, regRemove, List.filter_cons]
        rw [if_pos (by simpa using he)]
        rw [List.cons_append, regGet_cons, regGet_cons]
        by_cases hej : e.1 = j
        · simp [hej]
        · simp only [if_neg hej]
          simpa [regPut, regRemove] using ih

/-- C9: `create` on an existing id replaces the old instance with a fresh
one and leaves other ids alone; `destroy` of an absent id is a no-op; and
every id-keyed operation fails with `TerminalNotFound` on an absent id,
leaving the registry unchanged. -/
theorem registry_ops (reg : Registry) (id cols rows : Nat) (data : List Nat)
    (offset limit : Nat) :
    (regGet (createTerminal reg id cols rows) id =
        some (PersistentTerminal.init cols rows)
      ∧ ∀ j, j ≠ id →
          regGet (createTerminal reg id cols rows) j = regGet reg j)
    ∧ (regGet reg id = none → destroyTerminal reg id = reg)
    ∧ (regGet reg id = none →
        feedTerminal reg id data = (.error .TerminalNotFound, reg)
        ∧ resizeTerminal reg id cols rows = (.error .TerminalNotFound, reg)
        ∧ resetTerminal reg id = (.error .TerminalNotFound, reg)
        ∧ getTerminalJson reg id offset limit = (.error .TerminalNotFound, reg)
        ∧ getTerminalText reg id = (.error .TerminalNotFound, reg)
        ∧ getTerminalCursor reg id = (.error .TerminalNotFound, reg)
        ∧ isTerminalReady reg id = (.error .TerminalNotFound, reg)) := by
  refine ⟨⟨?_, ?_⟩, ?_, ?_⟩
  · unfold createTerminal
    cases regGet reg id <;> simp [regGet_regPut_self]
  · intro j hj
    unfold createTerminal
    cases hg : regGet reg id with
    | none => simp [regGet_regPut_ne _ _ _ _ hj]
    | some t =>
        rw [regGet_regPut_ne _ _ _ _ hj]
        exact regGet_regRemove_ne reg id j hj
  · intro h
    unfold destroyTerminal
    rw [h]
  · intro h
    refine ⟨?_, ?_, ?_, ?_, ?_, ?_, ?_⟩ <;>
      simp only [feedTerminal, resizeTerminal, resetTerminal, getTerminalJson,
        getTerminalText, getTerminalCursor, isTerminalReady, h]

/-- Witness for the hypotheses of `registry_ops`: the empty registry has no
entry for id 7, so the fallible operations all report `TerminalNotFound`. -/
theorem registry_ops_witness :
    regGet [] 7 = none ∧
      feedTerminal [] 7 [65] = (.error .TerminalNotFound, ([] : Registry)) :=
  ⟨rfl, ((registry_ops [] 7 4 4 [65] 0 0).2.2 rfl).1⟩

/-! # C3: flag encoding -/

/-- The packed flag byte equals the spec's OR encoding and stays below 64. -/
theorem flags_toInt_spec (f : StyleFlags) :
    f.toInt = flagsSpecOr f ∧ f.toInt < 64 := by
  rcases f with ⟨b, i, u, s, v, ft⟩
  cases b <;> cases i <;> cases u <;> cases s <;> cases v <;> cases ft <;>
    decide

/-- C3: every emitted span's flags value is exactly the bitwise OR of
bold=1, italic=2, underline=4, strikethrough=8, inverse=16, faint=32 for
the attributes of the span's style, and never has bits outside the six
defined ones (it is below 64). -/
theorem span_flag_encoding (palette : Palette) (terminal_bg : Option RGB)
    (cells : List Cell) :
    ∀ s ∈ rowSpans palette terminal_bg cells,
      s.flags.toInt = flagsSpecOr s.flags ∧ s.flags.toInt < 64 :=
  fun s _ => flags_toInt_spec s.flags

/-- Witness for the hypotheses of `span_flag_encoding`: a concrete span of
a concrete row. -/
theorem span_flag_encoding_witness :
    (⟨[97], none, none, {}, 1⟩ : Span) ∈ rowSpans defaultPalette none [aCell]
      ∧ (⟨[97], none, none, {}, 1⟩ : Span).flags.toInt < 64 :=
  ⟨by decide,
    (span_flag_encoding defaultPalette none [aCell] _ (by decide)).2⟩

/-! # C2: JSON output contract -/

/-- Lowercase hex digits stay lowercase hex. -/
theorem hexDigit_lower : ∀ m : Nat, m < 16 → isLowerHexDigit (hexDigit m) = true := by
  decide

/-- A quoted `#` plus six lowercase hex digits passes the color check. -/
theorem colorBytesOk_hex (x1 x2 x3 x4 x5 x6 : Nat)
    (h1 : isLowerHexDigit x1 = true) (h2 : isLowerHexDigit x2 = true)
    (h3 : isLowerHexDigit x3 = true) (h4 : isLowerHexDigit x4 = true)
    (h5 : isLowerHexDigit x5 = true) (h6 : isLowerHexDigit x6 = true) :
    colorBytesOk [34, 35, x1, x2, x3, x4, x5, x6, 34] = true := by
  simp only [colorBytesOk]
  refine Bool.or_eq_true_iff.mpr (Or.inr ?_)
  simp [List.range_succ, h1, h2, h3, h4, h5, h6]

/-- `writeColor` always renders `null` or a quoted lowercase `#rrggbb`. -/
theorem writeColor_ok (c : Option RGB) : colorBytesOk (writeColor c) = true := by
  cases c with
  | none => rfl
  | some rgb =>
      rcases rgb with ⟨r, g, b⟩
      have hr := r.isLt
      have hg := g.isLt
      have hb := b.isLt
      have hshow : writeColor (some ⟨r, g, b⟩) =
          [34, 35, hexDigit (r.val / 16), hexDigit (r.val % 16),
            hexDigit (g.val / 16), hexDigit (g.val % 16),
            hexDigit (b.val / 16), hexDigit (b.val % 16), 34] := by
        simp [writeColor, hexByte]
      rw [hshow]
      exact colorBytesOk_hex _ _ _ _ _ _
        (hexDigit_lower _ (by omega)) (hexDigit_lower _ (by omega))
        (hexDigit_lower _ (by omega)) (hexDigit_lower _ (by omega))
        (hexDigit_lower _ (by omega)) (hexDigit_lower _ (by omega))

/-- C2: every JSON document the extractor serializes is the rendering of a
structured document — one top-level object carrying `cols`, `rows`,
`cursor` as a two-element array, `cursorVisible`, `offset`, `totalLines`
and `lines`, where each line is an array of spans and each span the
5-tuple `[text, fg, bg, flags, width]` in exactly that order — and every
span color renders as `null` or a lowercase `#rrggbb` hex string. -/
theorem json_output_contract (t : Term) (offset : Nat) (lim : Option Nat) :
    writeJsonOutput t offset lim = renderDoc (extractDoc t offset lim)
    ∧ allColorsOk (extractDoc t offset lim) = true := by
  refine ⟨rfl, ?_⟩
  simp only [allColorsOk, List.all_eq_true]
  intro row _ s _
  simp [writeColor_ok]

/-! # C4: span merging invariant -/

set_option maxRecDepth 8000 in
/-- The packed-byte comparison of flag sets is exactly equality. -/
theorem styleFlags_eql_iff : ∀ f g : StyleFlags, (f.eql g = true) ↔ f = g := by
  decide

set_option maxRecDepth 8000 in
/-- The packed flag byte determines the flag set. -/
theorem styleFlags_toInt_inj : ∀ f g : StyleFlags, f.toInt = g.toInt → f = g := by
  decide

/-- Channel-wise RGB comparison is exactly equality. -/
theorem rgb_beq_iff (a b : RGB) :
    (a.r == b.r && a.g == b.g && a.b == b.b) = true ↔ a = b := by
  rcases a with ⟨ar, ag, ab⟩
  rcases b with ⟨br, bg2, bb⟩
  simp [RGB.mk.injEq, and_assoc]

/-- Component equality gives RGB equality. -/
theorem rgb_ext (a b : RGB) (h1 : a.r = b.r) (h2 : a.g = b.g)
    (h3 : a.b = b.b) : a = b := by
  cases a
  cases b
  simp_all

/-- The cell-style comparison of the native module is exactly equality. -/
theorem cellStyle_eql_iff (a b : CellStyle) : (a.eql b = true) ↔ a = b := by
  rcases a with ⟨fa, ba, fla⟩
  rcases b with ⟨fb, bb, flb⟩
  unfold CellStyle.eql
  simp only [Bool.and_eq_true]
  constructor
  · rintro ⟨⟨hfg, hbg⟩, hfl⟩
    have hf : fa = fb := by
      cases fa with
      | none => cases fb with
        | none => rfl
        | some v => simp at hfg
      | some va => cases fb with
        | none => simp at hfg
        | some vb =>
            simp at hfg
            exact congrArg some (rgb_ext va vb hfg.1.1 hfg.1.2 hfg.2)
    have hb : ba = bb := by
      cases ba with
      | none => cases bb with
        | none => rfl
        | some v => simp at hbg
      | some va => cases bb with
        | none => simp at hbg
        | some vb =>
            simp at hbg
            exact congrArg some (rgb_ext va vb hbg.1.1 hbg.1.2 hbg.2)
    have hfl2 : fla = flb := (styleFlags_eql_iff fla flb).mp hfl
    simp [hf, hb, hfl2]
  · intro h
    obtain ⟨h1, h2, h3⟩ := by
      simpa [CellStyle.mk.injEq] using h
    subst h1
    subst h2
    subst h3
    refine ⟨⟨?_, ?_⟩, (styleFlags_eql_iff fla fla).mpr rfl⟩
    · cases fa <;> simp [rgb_beq_iff]
    · cases ba <;> simp [rgb_beq_iff]

/-- Every codepoint needs at least one text-buffer byte. -/
theorem utf8Len_pos (cp : Nat) : 0 < utf8Len cp := by
  unfold utf8Len
  split_ifs <;> omega

/-- No codepoint needs more than four text-buffer bytes. -/
theorem utf8Len_le (cp : Nat) : utf8Len cp ≤ 4 := by
  unfold utf8Len
  split_ifs <;> omega

/-! ## Step equations of the cell walk -/

/-- A cell of the running style whose codepoint fits the buffer extends the
pending span. -/
theorem processCell_same_fit (palette : Palette) (terminal_bg : Option RGB)
    (st : SpanState) (c : Cell) (cs : CellStyle)
    (hcs : st.current_style = some cs)
    (hch : CellStyle.eql cs (getStyleFromCell c palette terminal_bg) = true)
    (hfit : st.text_len + utf8Len (emitCp c) ≤ 4096) :
    processCell palette terminal_bg st c =
      { st with text := st.text ++ [emitCp c],
                text_len := st.text_len + utf8Len (emitCp c),
                span_len := st.span_len + cellWidth c } := by
  have hfit2 : st.text_len +
      utf8Len (if c.codepoint = 0 then 32 else c.codepoint) ≤ 4096 := by
    simpa [emitCp] using hfit
  simp [processCell, hcs, hch, hfit2, emitCp, cellWidth]

/-- A cell of the running style whose codepoint does not fit the buffer is
dropped from the text but still counted in the width. -/
theorem processCell_same_nofit (palette : Palette) (terminal_bg : Option RGB)
    (st : SpanState) (c : Cell) (cs : CellStyle)
    (hcs : st.current_style = some cs)
    (hch : CellStyle.eql cs (getStyleFromCell c palette terminal_bg) = true)
    (hfit : ¬ (st.text_len + utf8Len (emitCp c) ≤ 4096)) :
    processCell palette terminal_bg st c =
      { st with span_len := st.span_len + cellWidth c } := by
  have hfit2 : ¬ (st.text_len +
      utf8Len (if c.codepoint = 0 then 32 else c.codepoint) ≤ 4096) := by
    simpa [emitCp] using hfit
  simp [processCell, hcs, hch, hfit2, emitCp, cellWidth]

/-- A cell of a different style flushes the pending span and starts a new
one. -/
theorem processCell_changed (palette : Palette) (terminal_bg : Option RGB)
    (st : SpanState) (c : Cell) (cs : CellStyle)
    (hcs : st.current_style = some cs)
    (hch : CellStyle.eql cs (getStyleFromCell c palette terminal_bg) = false)
    (hpos : 0 < st.text_len) :
    processCell palette terminal_bg st c =
      { spans := st.spans ++ [⟨st.text, cs.fg, cs.bg, cs.flags, st.span_len⟩],
        span_len := cellWidth c,
        current_style := some (getStyleFromCell c palette terminal_bg),
        text := [emitCp c], text_len := utf8Len (emitCp c) } := by
  have hle : utf8Len (if c.codepoint = 0 then 32 else c.codepoint) ≤ 4096 :=
    le_trans (utf8Len_le _) (by omega)
  simp [processCell, flushSpan, hcs, hch, hpos, hle, emitCp, cellWidth]

/-- The first processed cell of a row starts the first span. -/
theorem processCell_start (palette : Palette) (terminal_bg : Option RGB)
    (c : Cell) :
    processCell palette terminal_bg SpanState.start c =
      ⟨[], cellWidth c, some (getStyleFromCell c palette terminal_bg),
        [emitCp c], utf8Len (emitCp c)⟩ := by
  have hle : utf8Len (if c.codepoint = 0 then 32 else c.codepoint) ≤ 4096 :=
    le_trans (utf8Len_le _) (by omega)
  simp [processCell, SpanState.start, hle, emitCp, cellWidth]

/-- Processing one cell preserves the row-walk invariant. -/
theorem processCell_inv (palette : Palette) (terminal_bg : Option RGB)
    (st : SpanState) (c : Cell) (h : SpanInv st) :
    SpanInv (processCell palette terminal_bg st c) := by
  rcases h with hstart | ⟨hpos, hsome, hok⟩
  · subst hstart
    rw [processCell_start]
    right
    refine ⟨utf8Len_pos _, rfl, ?_⟩
    simp [pendingSpans, spansOk, utf8Len_pos (emitCp c), List.chain'_singleton]
  · obtain ⟨cs, hcs⟩ := Option.isSome_iff_exists.mp hsome
    by_cases hch : CellStyle.eql cs (getStyleFromCell c palette terminal_bg) = true
    · by_cases hfit : st.text_len + utf8Len (emitCp c) ≤ 4096
      · rw [processCell_same_fit palette terminal_bg st c cs hcs hch hfit]
        right
        refine ⟨by show 0 < st.text_len + utf8Len (emitCp c); omega,
          by simp [hcs], ?_⟩
        have hmap : (pendingSpans
            { st with text := st.text ++ [emitCp c],
                      text_len := st.text_len + utf8Len (emitCp c),
                      span_len := st.span_len + cellWidth c }).map styleOfSpan
            = (pendingSpans st).map styleOfSpan := by
          have hpos2 : 0 < st.text_len + utf8Len (emitCp c) := by
            have := utf8Len_pos (emitCp c)
            omega
          simp [pendingSpans, hcs, hpos, hpos2, styleOfSpan]
        unfold spansOk at hok ⊢
        rw [hmap]
        exact hok
      · rw [processCell_same_nofit palette terminal_bg st c cs hcs hch hfit]
        right
        refine ⟨hpos, by simp [hcs], ?_⟩
        have hmap : (pendingSpans
            { st with span_len := st.span_len + cellWidth c }).map styleOfSpan
            = (pendingSpans st).map styleOfSpan := by
          simp [pendingSpans, hcs, hpos, styleOfSpan]
        unfold spansOk at hok ⊢
        rw [hmap]
        exact hok
    · have hch2 : CellStyle.eql cs (getStyleFromCell c palette terminal_bg) = false :=
        Bool.eq_false_iff.mpr hch
      have hne : cs ≠ getStyleFromCell c palette terminal_bg := fun hh =>
        hch ((cellStyle_eql_iff cs _).mpr hh)
      rw [processCell_changed palette terminal_bg st c cs hcs hch2 hpos]
      right
      refine ⟨utf8Len_pos _, rfl, ?_⟩
      unfold spansOk
      have h1 : styleOfSpan ⟨st.text, cs.fg, cs.bg, cs.flags, st.span_len⟩ = cs := by
        cases cs
        rfl
      have hgoal : (pendingSpans
          { spans := st.spans ++ [⟨st.text, cs.fg, cs.bg, cs.flags, st.span_len⟩],
            span_len := cellWidth c,
            current_style := some (getStyleFromCell c palette terminal_bg),
            text := [emitCp c], text_len := utf8Len (emitCp c) }).map styleOfSpan =
          ((st.spans.map styleOfSpan) ++ [cs]) ++
            [getStyleFromCell c palette terminal_bg] := by
        have h2 : styleOfSpan ⟨[emitCp c], (getStyleFromCell c palette terminal_bg).fg,
            (getStyleFromCell c palette terminal_bg).bg,
            (getStyleFromCell c palette terminal_bg).flags, cellWidth c⟩ =
            getStyleFromCell c palette terminal_bg := by
          cases getStyleFromCell c palette terminal_bg
          rfl
        simp [pendingSpans, utf8Len_pos (emitCp c), h1, h2]
      rw [hgoal]
      unfold spansOk at hok
      have hpend : (pendingSpans st).map styleOfSpan =
          (st.spans.map styleOfSpan) ++ [cs] := by
        simp [pendingSpans, hcs, hpos, h1]
      rw [hpend] at hok
      refine List.Chain'.append hok (List.chain'_singleton _) ?_
      intro x hx y hy
      simp at hy
      subst hy
      have hx2 : x = cs := by
        have hlast : ((st.spans.map styleOfSpan) ++ [cs]).getLast? = some cs :=
          List.getLast?_concat _
        rw [hlast] at hx
        exact (Option.some_inj.mp hx).symm
      rw [hx2]
      exact hne

/-- The cell loop preserves the row-walk invariant. -/
theorem spanLoop_inv (palette : Palette) (terminal_bg : Option RGB) :
    ∀ (cells : List Cell) (idx lastCol : Nat) (st : SpanState),
      SpanInv st → SpanInv (spanLoop palette terminal_bg cells idx lastCol st)
  | [], _, _, _, h => h
  | c :: rest, idx, lastCol, st, h => by
      unfold spanLoop
      split_ifs
      · exact spanLoop_inv palette terminal_bg rest (idx + 1) lastCol st h
      · exact h
      · exact spanLoop_inv palette terminal_bg rest (idx + 1) lastCol _
          (processCell_inv palette terminal_bg st c h)

/-- The spans of every row form a chain of distinct adjacent styles. -/
theorem rowSpans_spansOk (palette : Palette) (terminal_bg : Option RGB)
    (cells : List Cell) : spansOk (rowSpans palette terminal_bg cells) := by
  have hinv := spanLoop_inv palette terminal_bg cells 0 (lastContentCol cells)
    SpanState.start (Or.inl rfl)
  show spansOk
    (if 0 < (spanLoop palette terminal_bg cells 0 (lastContentCol cells)
        SpanState.start).text_len
     then (flushSpan (spanLoop palette terminal_bg cells 0 (lastContentCol cells)
        SpanState.start)).spans
     else (spanLoop palette terminal_bg cells 0 (lastContentCol cells)
        SpanState.start).spans)
  set st := spanLoop palette terminal_bg cells 0 (lastContentCol cells)
    SpanState.start with hst
  rcases hinv with hstart | ⟨hpos, hsome, hok⟩
  · rw [hstart]
    simp [SpanState.start, spansOk]
  · obtain ⟨cs, hcs⟩ := Option.isSome_iff_exists.mp hsome
    rw [if_pos hpos]
    have hfl : (flushSpan st).spans = pendingSpans st := by
      simp [flushSpan, pendingSpans, hcs, hpos]
    rw [hfl]
    exact hok

/-- C4: within every extracted row, no two adjacent emitted spans have an
equal (fg, bg, flags) triple — a new span starts only when the resolved
cell style differs from the current span's style. -/
theorem span_merging_invariant (palette : Palette) (terminal_bg : Option RGB)
    (cells : List Cell) :
    List.Chain' (fun a b : Span =>
        (a.fg, a.bg, a.flags.toInt) ≠ (b.fg, b.bg, b.flags.toInt))
      (rowSpans palette terminal_bg cells) := by
  have h := rowSpans_spansOk palette terminal_bg cells
  unfold spansOk at h
  rw [List.chain'_map] at h
  refine h.imp ?_
  intro a b hne heq
  apply hne
  have h1 : a.fg = b.fg := congrArg Prod.fst heq
  have h2 : a.bg = b.bg := congrArg (fun p => p.2.1) heq
  have h3 : a.flags.toInt = b.flags.toInt := congrArg (fun p => p.2.2) heq
  have h4 : a.flags = b.flags := styleFlags_toInt_inj _ _ h3
  unfold styleOfSpan
  rw [h1, h2, h4]

/-! # C5: trimming, nulls-as-spaces, widths -/

/-- Past the last content column the cell loop does nothing. -/
theorem spanLoop_stop (palette : Palette) (terminal_bg : Option RGB) :
    ∀ (cells : List Cell) (idx n : Nat) (st : SpanState), n ≤ idx →
      spanLoop palette terminal_bg cells idx n st = st
  | [], _, _, _, _ => rfl
  | c :: rest, idx, n, st, h => by
      simp only [spanLoop]
      split_ifs with h1
      · exact spanLoop_stop palette terminal_bg rest (idx + 1) n st (by omega)
      · rfl

/-- The cell loop over a concatenation runs the parts in sequence. -/
theorem spanLoop_append (palette : Palette) (terminal_bg : Option RGB) :
    ∀ (l1 l2 : List Cell) (idx n : Nat) (st : SpanState),
      spanLoop palette terminal_bg (l1 ++ l2) idx n st =
        spanLoop palette terminal_bg l2 (idx + l1.length) n
          (spanLoop palette terminal_bg l1 idx n st)
  | [], l2, idx, n, st => by simp [spanLoop]
  | c :: rest, l2, idx, n, st => by
      show spanLoop palette terminal_bg (c :: (rest ++ l2)) idx n st = _
      simp only [spanLoop]
      split_ifs with h1 h2
      · rw [spanLoop_append palette terminal_bg rest l2 (idx + 1) n st]
        simp only [List.length_cons]
        congr 1
        omega
      · simp only [List.length_cons]
        rw [spanLoop_stop palette terminal_bg l2 (idx + (rest.length + 1)) n st
          (Nat.le_trans h2 (Nat.le_add_right idx _))]
      · rw [spanLoop_append palette terminal_bg rest l2 (idx + 1) n _]
        simp only [List.length_cons]
        congr 1
        omega

/-- Past the last content column nothing is processed. -/
theorem processedFrom_stop :
    ∀ (cells : List Cell) (idx n : Nat), n ≤ idx →
      processedFrom cells idx n = []
  | [], _, _, _ => rfl
  | c :: rest, idx, n, h => by
      simp only [processedFrom]
      split_ifs with h1
      · exact processedFrom_stop rest (idx + 1) n (by omega)
      · rfl

/-- The same split for the processed-cell list. -/
theorem processedFrom_append :
    ∀ (l1 l2 : List Cell) (idx n : Nat),
      processedFrom (l1 ++ l2) idx n =
        processedFrom l1 idx n ++ processedFrom l2 (idx + l1.length) n
  | [], l2, idx, n => by simp [processedFrom]
  | c :: rest, l2, idx, n => by
      show processedFrom (c :: (rest ++ l2)) idx n = _
      simp only [processedFrom]
      split_ifs with h1 h2
      · rw [processedFrom_append rest l2 (idx + 1) n]
        simp only [List.length_cons]
        congr 2
        omega
      · simp only [List.length_cons]
        rw [processedFrom_stop l2 (idx + (rest.length + 1)) n
          (Nat.le_trans h2 (Nat.le_add_right idx _))]
        simp
      · rw [processedFrom_append rest l2 (idx + 1) n]
        simp only [List.length_cons, List.cons_append]
        congr 3
        omega

/-- First-pass scan over a concatenation. -/
theorem lccAux_append :
    ∀ (l1 l2 : List Cell) (idx last : Nat),
      lastContentColAux (l1 ++ l2) idx last =
        lastContentColAux l2 (idx + l1.length) (lastContentColAux l1 idx last)
  | [], l2, idx, last => by simp [lastContentColAux]
  | c :: rest, l2, idx, last => by
      show lastContentColAux (c :: (rest ++ l2)) idx last = _
      simp only [lastContentColAux, List.length_cons]
      have harith : idx + 1 + rest.length = idx + (rest.length + 1) := by omega
      split_ifs with h1 h2
      · rw [lccAux_append rest l2 (idx + 1) last, harith]
      · rw [lccAux_append rest l2 (idx + 1) (idx + 1), harith]
      · rw [lccAux_append rest l2 (idx + 1) last, harith]

/-- Null-codepoint cells never advance the last content column. -/
theorem lccAux_nulls :
    ∀ (l : List Cell) (idx last : Nat), (∀ c ∈ l, c.codepoint = 0) →
      lastContentColAux l idx last = last
  | [], _, _, _ => rfl
  | c :: rest, idx, last, h => by
      simp only [lastContentColAux]
      have hc : c.codepoint = 0 := h c (by simp)
      have hrest : ∀ x ∈ rest, x.codepoint = 0 := fun x hx => h x (by simp [hx])
      split_ifs with h1 h2
      · exact lccAux_nulls rest (idx + 1) last hrest
      · exact absurd hc h2
      · exact lccAux_nulls rest (idx + 1) last hrest

/-- The scan result is bounded by the scanned range. -/
theorem lccAux_le :
    ∀ (l : List Cell) (idx last : Nat),
      lastContentColAux l idx last ≤ max last (idx + l.length)
  | [], idx, last => by
      simp only [lastContentColAux, List.length_nil]
      exact le_max_left _ _
  | c :: rest, idx, last => by
      simp only [lastContentColAux, List.length_cons]
      split_ifs with h1 h2
      · have := lccAux_le rest (idx + 1) last
        omega
      · have := lccAux_le rest (idx + 1) (idx + 1)
        omega
      · have := lccAux_le rest (idx + 1) last
        omega

/-- The last content column never exceeds the row length. -/
theorem lastContentCol_le (cells : List Cell) :
    lastContentCol cells ≤ cells.length := by
  have := lccAux_le cells 0 0
  simp only [lastContentCol]
  omega

/-- Appending null-codepoint cells does not change the last content
column. -/
theorem lastContentCol_nulls (cells tail : List Cell)
    (h : ∀ c ∈ tail, c.codepoint = 0) :
    lastContentCol (cells ++ tail) = lastContentCol cells := by
  unfold lastContentCol
  rw [lccAux_append]
  exact lccAux_nulls tail _ _ h

/-- Trailing null cells are trimmed before span construction. -/
theorem rowSpans_trim (palette : Palette) (terminal_bg : Option RGB)
    (cells tail : List Cell) (h : ∀ c ∈ tail, c.codepoint = 0) :
    rowSpans palette terminal_bg (cells ++ tail) =
      rowSpans palette terminal_bg cells := by
  have hlcc := lastContentCol_nulls cells tail h
  show (let lastCol := lastContentCol (cells ++ tail)
        let st := spanLoop palette terminal_bg (cells ++ tail) 0 lastCol
          SpanState.start
        if 0 < st.text_len then (flushSpan st).spans else st.spans) = _
  simp only [hlcc]
  rw [spanLoop_append]
  rw [spanLoop_stop palette terminal_bg tail (0 + cells.length)
    (lastContentCol cells) _ (by simpa using lastContentCol_le cells)]
  rfl

/-- Byte demand of a processed-cell list, cons form. -/
theorem utf8TotalLen_cons (c : Cell) (l : List Cell) :
    utf8TotalLen (c :: l) = utf8Len (emitCp c) + utf8TotalLen l := by
  simp [utf8TotalLen]

/-- Joined text over an appended span. -/
theorem joinedText_concat (l : List Span) (s : Span) :
    joinedText (l ++ [s]) = joinedText l ++ s.text := by
  simp [joinedText]

/-- Width sum over an appended span. -/
theorem sumWidths_concat (l : List Span) (s : Span) :
    sumWidths (l ++ [s]) = sumWidths l + s.width := by
  simp [sumWidths]

/-- Under the byte cap, the cell loop emits exactly one codepoint per
processed cell (null cells as spaces) and its text length stays within
budget. -/
theorem spanLoop_stText (palette : Palette) (terminal_bg : Option RGB) :
    ∀ (cells : List Cell) (idx n : Nat) (st : SpanState),
      SpanInv st →
      st.text_len + utf8TotalLen (processedFrom cells idx n) ≤ 4096 →
      stText (spanLoop palette terminal_bg cells idx n st) =
        stText st ++ (processedFrom cells idx n).map emitCp
      ∧ (spanLoop palette terminal_bg cells idx n st).text_len ≤
          st.text_len + utf8TotalLen (processedFrom cells idx n)
  | [], idx, n, st, _, _ => by
      simp [spanLoop, processedFrom, utf8TotalLen]
  | c :: rest, idx, n, st, hinv, hcap => by
      simp only [spanLoop]
      split_ifs with h1 h2
      · have hpf : processedFrom (c :: rest) idx n =
            processedFrom rest (idx + 1) n := by
          simp [processedFrom, h1]
        rw [hpf] at hcap ⊢
        exact spanLoop_stText palette terminal_bg rest (idx + 1) n st hinv hcap
      · have hpf : processedFrom (c :: rest) idx n = [] := by
          simp [processedFrom, h1, h2]
        rw [hpf]
        simp [utf8TotalLen]
      · have hpf : processedFrom (c :: rest) idx n =
            c :: processedFrom rest (idx + 1) n := by
          simp [processedFrom, h1, h2]
        rw [hpf] at hcap ⊢
        rw [utf8TotalLen_cons] at hcap ⊢
        have hinv2 := processCell_inv palette terminal_bg st c hinv
        rcases hinv with hstart | ⟨hpos, hsome, hok⟩
        · -- first processed cell of the row
          subst hstart
          have heq := processCell_start palette terminal_bg c
          rw [heq] at hinv2 ⊢
          have hcap0 : (0 : Nat) + (utf8Len (emitCp c) +
              utf8TotalLen (processedFrom rest (idx + 1) n)) ≤ 4096 := hcap
          have hih := spanLoop_stText palette terminal_bg rest (idx + 1) n
            ⟨[], cellWidth c, some (getStyleFromCell c palette terminal_bg),
              [emitCp c], utf8Len (emitCp c)⟩ hinv2
            (by show utf8Len (emitCp c) +
                  utf8TotalLen (processedFrom rest (idx + 1) n) ≤ 4096
                omega)
          refine ⟨?_, ?_⟩
          · rw [hih.1]
            simp [stText, SpanState.start, joinedText]
          · replace hih : (spanLoop palette terminal_bg rest (idx + 1) n
                ⟨[], cellWidth c, some (getStyleFromCell c palette terminal_bg),
                  [emitCp c], utf8Len (emitCp c)⟩).text_len ≤
                utf8Len (emitCp c) +
                  utf8TotalLen (processedFrom rest (idx + 1) n) := hih.2
            show _ ≤ (0 : Nat) + (utf8Len (emitCp c) +
              utf8TotalLen (processedFrom rest (idx + 1) n))
            omega
        · obtain ⟨cs, hcs⟩ := Option.isSome_iff_exists.mp hsome
          by_cases hch : CellStyle.eql cs
              (getStyleFromCell c palette terminal_bg) = true
          · -- same style; the codepoint fits by the cap
            have hfit : st.text_len + utf8Len (emitCp c) ≤ 4096 := by omega
            have heq := processCell_same_fit palette terminal_bg st c cs hcs
              hch hfit
            rw [heq] at hinv2 ⊢
            have hih := spanLoop_stText palette terminal_bg rest (idx + 1) n
              _ hinv2
              (by show st.text_len + utf8Len (emitCp c) +
                    utf8TotalLen (processedFrom rest (idx + 1) n) ≤ 4096
                  omega)
            refine ⟨?_, ?_⟩
            · rw [hih.1]
              simp [stText, List.append_assoc]
            · replace hih : (spanLoop palette terminal_bg rest (idx + 1) n
                  { st with text := st.text ++ [emitCp c],
                            text_len := st.text_len + utf8Len (emitCp c),
                            span_len := st.span_len + cellWidth c }).text_len ≤
                  st.text_len + utf8Len (emitCp c) +
                    utf8TotalLen (processedFrom rest (idx + 1) n) := hih.2
              omega
          · -- style change flushes and starts a new span
            have hch2 : CellStyle.eql cs
                (getStyleFromCell c palette terminal_bg) = false :=
              Bool.eq_false_iff.mpr hch
            have heq := processCell_changed palette terminal_bg st c cs hcs
              hch2 hpos
            rw [heq] at hinv2 ⊢
            have hih := spanLoop_stText palette terminal_bg rest (idx + 1) n
              _ hinv2
              (by show utf8Len (emitCp c) +
                    utf8TotalLen (processedFrom rest (idx + 1) n) ≤ 4096
                  omega)
            refine ⟨?_, ?_⟩
            · rw [hih.1]
              simp [stText, joinedText_concat, List.append_assoc]
            · replace hih : (spanLoop palette terminal_bg rest (idx + 1) n
                  { spans := st.spans ++
                      [⟨st.text, cs.fg, cs.bg, cs.flags, st.span_len⟩],
                    span_len := cellWidth c,
                    current_style := some (getStyleFromCell c palette terminal_bg),
                    text := [emitCp c],
                    text_len := utf8Len (emitCp c) }).text_len ≤
                  utf8Len (emitCp c) +
                    utf8TotalLen (processedFrom rest (idx + 1) n) := hih.2
              omega

/-- The cell loop adds exactly the processed cells' widths (spacer tails
contribute nothing), regardless of the text-buffer cap. -/
theorem spanLoop_stWidth (palette : Palette) (terminal_bg : Option RGB) :
    ∀ (cells : List Cell) (idx n : Nat) (st : SpanState),
      SpanInv st →
      stWidth (spanLoop palette terminal_bg cells idx n st) =
        stWidth st + ((processedFrom cells idx n).map cellWidth).sum
  | [], idx, n, st, _ => by
      simp [spanLoop, processedFrom]
  | c :: rest, idx, n, st, hinv => by
      simp only [spanLoop]
      split_ifs with h1 h2
      · have hpf : processedFrom (c :: rest) idx n =
            processedFrom rest (idx + 1) n := by
          simp [processedFrom, h1]
        rw [hpf]
        exact spanLoop_stWidth palette terminal_bg rest (idx + 1) n st hinv
      · have hpf : processedFrom (c :: rest) idx n = [] := by
          simp [processedFrom, h1, h2]
        rw [hpf]
        simp
      · have hpf : processedFrom (c :: rest) idx n =
            c :: processedFrom rest (idx + 1) n := by
          simp [processedFrom, h1, h2]
        rw [hpf]
        simp only [List.map_cons, List.sum_cons]
        have hinv2 := processCell_inv palette terminal_bg st c hinv
        rcases hinv with hstart | ⟨hpos, hsome, hok⟩
        · subst hstart
          have heq := processCell_start palette terminal_bg c
          rw [heq] at hinv2 ⊢
          have hih := spanLoop_stWidth palette terminal_bg rest (idx + 1) n
            _ hinv2
          rw [hih]
          have hred : stWidth ⟨[], cellWidth c,
              some (getStyleFromCell c palette terminal_bg),
              [emitCp c], utf8Len (emitCp c)⟩ = cellWidth c := by
            simp [stWidth, sumWidths]
          have hred0 : stWidth SpanState.start = 0 := by
            simp [stWidth, sumWidths, SpanState.start]
          rw [hred, hred0]
          omega
        · obtain ⟨cs, hcs⟩ := Option.isSome_iff_exists.mp hsome
          by_cases hch : CellStyle.eql cs
              (getStyleFromCell c palette terminal_bg) = true
          · by_cases hfit : st.text_len + utf8Len (emitCp c) ≤ 4096
            · have heq := processCell_same_fit palette terminal_bg st c cs hcs
                hch hfit
              rw [heq] at hinv2 ⊢
              have hih := spanLoop_stWidth palette terminal_bg rest (idx + 1) n
                _ hinv2
              rw [hih]
              have hred : stWidth { st with text := st.text ++ [emitCp c],
                                            text_len := st.text_len + utf8Len (emitCp c),
                                            span_len := st.span_len + cellWidth c } =
                  stWidth st + cellWidth c := by
                simp [stWidth]
                omega
              rw [hred]
              omega
            · have heq := processCell_same_nofit palette terminal_bg st c cs
                hcs hch hfit
              rw [heq] at hinv2 ⊢
              have hih := spanLoop_stWidth palette terminal_bg rest (idx + 1) n
                _ hinv2
              rw [hih]
              have hred : stWidth { st with
                  span_len := st.span_len + cellWidth c } =
                  stWidth st + cellWidth c := by
                simp [stWidth]
                omega
              rw [hred]
              omega
          · have hch2 : CellStyle.eql cs
                (getStyleFromCell c palette terminal_bg) = false :=
              Bool.eq_false_iff.mpr hch
            have heq := processCell_changed palette terminal_bg st c cs hcs
              hch2 hpos
            rw [heq] at hinv2 ⊢
            have hih := spanLoop_stWidth palette terminal_bg rest (idx + 1) n
              _ hinv2
            rw [hih]
            have hred : stWidth { spans := st.spans ++
                                     [⟨st.text, cs.fg, cs.bg, cs.flags, st.span_len⟩],
                                   span_len := cellWidth c,
                                   current_style :=
                                     some (getStyleFromCell c palette terminal_bg),
                                   text := [emitCp c],
                                   text_len := utf8Len (emitCp c) } =
                stWidth st + cellWidth c := by
              simp [stWidth, sumWidths_concat]
              try omega
            rw [hred]
            omega

/-- Under the text-buffer cap, the joined span text of a row is exactly one
codepoint per processed cell, null cells read as spaces. -/
theorem rowSpans_text (palette : Palette) (terminal_bg : Option RGB)
    (cells : List Cell)
    (hcap : utf8TotalLen (processedCells cells) ≤ 4096) :
    joinedText (rowSpans palette terminal_bg cells) =
      (processedCells cells).map emitCp := by
  have hinv := spanLoop_inv palette terminal_bg cells 0 (lastContentCol cells)
    SpanState.start (Or.inl rfl)
  have htxt := spanLoop_stText palette terminal_bg cells 0 (lastContentCol cells)
    SpanState.start (Or.inl rfl)
    (by show (SpanState.start).text_len +
          utf8TotalLen (processedCells cells) ≤ 4096
        show (0 : Nat) + utf8TotalLen (processedCells cells) ≤ 4096
        omega)
  show joinedText
    (if 0 < (spanLoop palette terminal_bg cells 0 (lastContentCol cells)
        SpanState.start).text_len
     then (flushSpan (spanLoop palette terminal_bg cells 0 (lastContentCol cells)
        SpanState.start)).spans
     else (spanLoop palette terminal_bg cells 0 (lastContentCol cells)
        SpanState.start).spans) = _
  set st := spanLoop palette terminal_bg cells 0 (lastContentCol cells)
    SpanState.start with hst
  rcases hinv with hstart | ⟨hpos, hsome, hok⟩
  · rw [hstart]
    have h1 := htxt.1
    rw [hstart] at h1
    simp only [stText, SpanState.start, joinedText, List.map_nil,
      List.flatten_nil, List.nil_append, List.append_nil] at h1
    simp only [SpanState.start, joinedText, List.map_nil, List.flatten_nil,
      lt_irrefl, if_false]
    exact h1
  · rw [if_pos hpos]
    obtain ⟨cs, hcs⟩ := Option.isSome_iff_exists.mp hsome
    have hfl : (flushSpan st).spans =
        st.spans ++ [⟨st.text, cs.fg, cs.bg, cs.flags, st.span_len⟩] := by
      simp [flushSpan, hcs]
    rw [hfl, joinedText_concat]
    have h1 := htxt.1
    simpa [stText, SpanState.start, joinedText] using h1

/-- The summed span widths of a row are exactly the processed cells'
widths. -/
theorem rowSpans_width (palette : Palette) (terminal_bg : Option RGB)
    (cells : List Cell) :
    sumWidths (rowSpans palette terminal_bg cells) =
      ((processedCells cells).map cellWidth).sum := by
  have hinv := spanLoop_inv palette terminal_bg cells 0 (lastContentCol cells)
    SpanState.start (Or.inl rfl)
  have hwid := spanLoop_stWidth palette terminal_bg cells 0
    (lastContentCol cells) SpanState.start (Or.inl rfl)
  show sumWidths
    (if 0 < (spanLoop palette terminal_bg cells 0 (lastContentCol cells)
        SpanState.start).text_len
     then (flushSpan (spanLoop palette terminal_bg cells 0 (lastContentCol cells)
        SpanState.start)).spans
     else (spanLoop palette terminal_bg cells 0 (lastContentCol cells)
        SpanState.start).spans) = _
  set st := spanLoop palette terminal_bg cells 0 (lastContentCol cells)
    SpanState.start with hst
  have hw0 : stWidth SpanState.start = 0 := by
    simp [stWidth, sumWidths, SpanState.start]
  rw [hw0] at hwid
  rcases hinv with hstart | ⟨hpos, hsome, hok⟩
  · rw [hstart] at hwid ⊢
    rw [hw0] at hwid
    rw [if_neg (show ¬ 0 < (SpanState.start).text_len by simp [SpanState.start])]
    show (0 : Nat) = _
    simp only [processedCells]
    omega
  · rw [if_pos hpos]
    obtain ⟨cs, hcs⟩ := Option.isSome_iff_exists.mp hsome
    have hfl : (flushSpan st).spans =
        st.spans ++ [⟨st.text, cs.fg, cs.bg, cs.flags, st.span_len⟩] := by
      simp [flushSpan, hcs]
    rw [hfl, sumWidths_concat]
    show sumWidths st.spans + st.span_len = _
    rw [show sumWidths st.spans + st.span_len = stWidth st from rfl, hwid]
    simp [processedCells]

/-- C5 (amended): within each extracted row, trailing null-codepoint cells
are trimmed before span construction; null cells before the last non-null
cell are emitted as spaces as long as the row's UTF-8 text demand fits the
per-span 4096-byte buffer (codepoints beyond the cap are dropped from the
text but still counted in the width); and span widths always sum to the
processed cells' widths (1 narrow, 2 wide, spacer tails contributing
nothing). -/
theorem row_extraction_amended :
    (∀ (palette : Palette) (terminal_bg : Option RGB) (cells tail : List Cell),
      (∀ c ∈ tail, c.codepoint = 0) →
      rowSpans palette terminal_bg (cells ++ tail) =
        rowSpans palette terminal_bg cells)
    ∧ (∀ (palette : Palette) (terminal_bg : Option RGB) (cells : List Cell),
      utf8TotalLen (processedCells cells) ≤ 4096 →
      joinedText (rowSpans palette terminal_bg cells) =
        (processedCells cells).map emitCp)
    ∧ (∀ (palette : Palette) (terminal_bg : Option RGB) (cells : List Cell),
      sumWidths (rowSpans palette terminal_bg cells) =
        ((processedCells cells).map cellWidth).sum) :=
  ⟨rowSpans_trim, rowSpans_text, rowSpans_width⟩

/-- Witness for the hypotheses of `row_extraction_amended` at a concrete
row. -/
theorem row_extraction_amended_witness :
    (∀ c ∈ [blankCell], c.codepoint = 0)
    ∧ rowSpans defaultPalette none ([aCell] ++ [blankCell]) =
        rowSpans defaultPalette none [aCell]
    ∧ utf8TotalLen (processedCells [aCell, blankCell, bCell]) ≤ 4096
    ∧ joinedText (rowSpans defaultPalette none [aCell, blankCell, bCell]) =
        (processedCells [aCell, blankCell, bCell]).map emitCp :=
  ⟨by decide,
    row_extraction_amended.1 defaultPalette none [aCell] [blankCell] (by decide),
    by decide,
    row_extraction_amended.2.1 defaultPalette none [aCell, blankCell, bCell]
      (by decide)⟩

/-! ## C5 counterexample: the 4096-byte text buffer -/

/-- Rows of non-spacer cells within range are processed whole. -/
theorem processedFrom_all :
    ∀ (cells : List Cell) (idx n : Nat),
      (∀ c ∈ cells, c.wide ≠ Wide.spacer_tail) → idx + cells.length ≤ n →
      processedFrom cells idx n = cells
  | [], _, _, _, _ => rfl
  | c :: rest, idx, n, h, hle => by
      simp only [processedFrom]
      rw [if_neg (h c (by simp))]
      rw [if_neg (by simp at hle; omega)]
      rw [processedFrom_all rest (idx + 1) n
        (fun x hx => h x (by simp [hx])) (by simp at hle; omega)]

/-- The first-pass scan over a run of content cells lands one past the
run. -/
theorem lccAux_content :
    ∀ (l : List Cell) (idx last : Nat),
      (∀ c ∈ l, c.codepoint ≠ 0 ∧ c.wide ≠ Wide.spacer_tail) → l ≠ [] →
      lastContentColAux l idx last = idx + l.length
  | [], _, _, _, hne => absurd rfl hne
  | c :: rest, idx, last, h, _ => by
      simp only [lastContentColAux, List.length_cons]
      rw [if_neg (h c (by simp)).2]
      rw [if_pos (h c (by simp)).1]
      cases rest with
      | nil => simp [lastContentColAux]
      | cons c2 rest2 =>
          rw [lccAux_content (c2 :: rest2) (idx + 1) (idx + 1)
            (fun x hx => h x (by simp at hx ⊢; tauto)) (by simp)]
          simp
          omega

/-- The last content column of the 4098-cell row. -/
theorem lcc_bigRow : lastContentCol bigRow = 4098 := by
  unfold lastContentCol bigRow
  rw [lccAux_append]
  have h1 : lastContentColAux (List.replicate 4096 aCell) 0 0 = 4096 := by
    rw [lccAux_content (List.replicate 4096 aCell) 0 0
      (fun x hx => by
        have hxa := List.eq_of_mem_replicate hx
        subst hxa
        exact ⟨by decide, by decide⟩)
      (fun hc => by
        have hlc := congrArg List.length hc
        rw [List.length_replicate] at hlc
        exact absurd hlc (by decide))]
    rw [List.length_replicate]
  rw [h1, List.length_replicate]
  decide

set_option maxRecDepth 2000 in
/-- Running the cell loop over a uniform run of default-style `a` cells:
the width always advances, the text only while the buffer has room. -/
theorem spanLoop_uniform_a :
    ∀ (k idx n : Nat) (st : SpanState),
      idx + k ≤ n →
      st.current_style = some (getStyleFromCell aCell defaultPalette none) →
      st.text_len ≤ 4096 →
      spanLoop defaultPalette none (List.replicate k aCell) idx n st =
        { st with span_len := st.span_len + k,
                  text := st.text ++
                    List.replicate (min k (4096 - st.text_len)) 97,
                  text_len := min (st.text_len + k) 4096 }
  | 0, idx, n, st, _, _, h3 => by
      rcases st with ⟨sp, sl, cst, tx, tl⟩
      replace h3 : tl ≤ 4096 := h3
      simp only [List.replicate]
      show (⟨sp, sl, cst, tx, tl⟩ : SpanState) = _
      have e1 : min (tl + 0) 4096 = tl := by omega
      have e2 : min 0 (4096 - tl) = 0 := by omega
      simp [e1, e2, h3]
  | k + 1, idx, n, st, hle, hcs, h3 => by
      rcases st with ⟨sp, sl, cst, tx, tl⟩
      replace hcs : cst = some (getStyleFromCell aCell defaultPalette none) :=
        hcs
      replace h3 : tl ≤ 4096 := h3
      rw [List.replicate_succ]
      simp only [spanLoop]
      rw [if_neg (by decide : ¬ aCell.wide = Wide.spacer_tail)]
      rw [if_neg (by omega : ¬ n ≤ idx)]
      have hch : CellStyle.eql (getStyleFromCell aCell defaultPalette none)
          (getStyleFromCell aCell defaultPalette none) = true :=
        (cellStyle_eql_iff _ _).mpr rfl
      have hlen : utf8Len (emitCp aCell) = 1 := by decide
      have hmit : emitCp aCell = 97 := by decide
      have hwid : cellWidth aCell = 1 := by decide
      by_cases hfit : tl + 1 ≤ 4096
      · rw [processCell_same_fit defaultPalette none ⟨sp, sl, cst, tx, tl⟩
          aCell (getStyleFromCell aCell defaultPalette none) hcs hch
          (by rw [hlen]; show tl + 1 ≤ 4096; omega)]
        rw [hlen, hwid, hmit]
        rw [spanLoop_uniform_a k (idx + 1) n ⟨sp, sl + 1, cst, tx ++ [97], tl + 1⟩
          (by omega) hcs (show tl + 1 ≤ 4096 by omega)]
        have e1 : min k (4096 - (tl + 1)) + 1 = min (k + 1) (4096 - tl) := by
          omega
        show SpanState.mk sp (sl + 1 + k) cst
            ((tx ++ [97]) ++ List.replicate (min k (4096 - (tl + 1))) 97)
            (min (tl + 1 + k) 4096) =
          SpanState.mk sp (sl + (k + 1)) cst
            (tx ++ List.replicate (min (k + 1) (4096 - tl)) 97)
            (min (tl + (k + 1)) 4096)
        rw [SpanState.mk.injEq]
        refine ⟨rfl, by omega, rfl, ?_, by omega⟩
        rw [← e1, List.replicate_succ]
        simp [List.append_assoc]
      · rw [processCell_same_nofit defaultPalette none ⟨sp, sl, cst, tx, tl⟩
          aCell (getStyleFromCell aCell defaultPalette none) hcs hch
          (by rw [hlen]; show ¬ tl + 1 ≤ 4096; omega)]
        rw [hwid]
        rw [spanLoop_uniform_a k (idx + 1) n ⟨sp, sl + 1, cst, tx, tl⟩
          (by omega) hcs (show tl ≤ 4096 by omega)]
        have e1 : min k (4096 - tl) = min (k + 1) (4096 - tl) := by omega
        show SpanState.mk sp (sl + 1 + k) cst
            (tx ++ List.replicate (min k (4096 - tl)) 97)
            (min (tl + k) 4096) =
          SpanState.mk sp (sl + (k + 1)) cst
            (tx ++ List.replicate (min (k + 1) (4096 - tl)) 97)
            (min (tl + (k + 1)) 4096)
        rw [SpanState.mk.injEq]
        exact ⟨rfl, by omega, rfl, by rw [e1], by omega⟩

/-- One step of the cell loop on a non-spacer cell within range. -/
theorem spanLoop_cons (palette : Palette) (terminal_bg : Option RGB)
    (c : Cell) (rest : List Cell) (idx n : Nat) (st : SpanState)
    (h1 : ¬ c.wide = Wide.spacer_tail) (h2 : ¬ n ≤ idx) :
    spanLoop palette terminal_bg (c :: rest) idx n st =
      spanLoop palette terminal_bg rest (idx + 1) n
        (processCell palette terminal_bg st c) := by
  simp only [spanLoop]
  rw [if_neg h1, if_neg h2]

/-- The cell loop over `bigRow` ends with 4096 text bytes but 4098 width:
the 4097th and 4098th codepoints are dropped by the 4096-byte buffer. -/
theorem spanLoop_bigRow :
    spanLoop defaultPalette none bigRow 0 4098 SpanState.start =
      ⟨[], 4098, some (getStyleFromCell aCell defaultPalette none),
        97 :: List.replicate 4095 97, 4096⟩ := by
  have hsplit : List.replicate 4096 aCell = aCell :: List.replicate 4095 aCell := by
    rw [← List.replicate_succ]
  have hb1 : CellStyle.eql (getStyleFromCell aCell defaultPalette none)
      (getStyleFromCell blankCell defaultPalette none) = true := by decide
  have hb2 : CellStyle.eql (getStyleFromCell aCell defaultPalette none)
      (getStyleFromCell bCell defaultPalette none) = true := by decide
  have hstep1 : ∀ txt : List Nat,
      processCell defaultPalette none
        ⟨[], 4096, some (getStyleFromCell aCell defaultPalette none), txt, 4096⟩
        blankCell =
      ⟨[], 4097, some (getStyleFromCell aCell defaultPalette none), txt, 4096⟩ := by
    intro txt
    rw [processCell_same_nofit defaultPalette none _ blankCell
      (getStyleFromCell aCell defaultPalette none) rfl hb1
      (by show ¬ (4096 + utf8Len (emitCp blankCell) ≤ 4096); decide)]
    show SpanState.mk [] (4096 + cellWidth blankCell)
        (some (getStyleFromCell aCell defaultPalette none)) txt 4096 =
      SpanState.mk [] 4097
        (some (getStyleFromCell aCell defaultPalette none)) txt 4096
    rw [SpanState.mk.injEq]
    exact ⟨rfl, by decide, rfl, rfl, rfl⟩
  have hstep2 : ∀ txt : List Nat,
      processCell defaultPalette none
        ⟨[], 4097, some (getStyleFromCell aCell defaultPalette none), txt, 4096⟩
        bCell =
      ⟨[], 4098, some (getStyleFromCell aCell defaultPalette none), txt, 4096⟩ := by
    intro txt
    rw [processCell_same_nofit defaultPalette none _ bCell
      (getStyleFromCell aCell defaultPalette none) rfl hb2
      (by show ¬ (4096 + utf8Len (emitCp bCell) ≤ 4096); decide)]
    show SpanState.mk [] (4097 + cellWidth bCell)
        (some (getStyleFromCell aCell defaultPalette none)) txt 4096 =
      SpanState.mk [] 4098
        (some (getStyleFromCell aCell defaultPalette none)) txt 4096
    rw [SpanState.mk.injEq]
    exact ⟨rfl, by decide, rfl, rfl, rfl⟩
  have hinner : spanLoop defaultPalette none (List.replicate 4096 aCell) 0 4098
      SpanState.start =
      ⟨[], 4096, some (getStyleFromCell aCell defaultPalette none),
        97 :: List.replicate 4095 97, 4096⟩ := by
    rw [hsplit]
    rw [spanLoop_cons defaultPalette none aCell (List.replicate 4095 aCell)
      0 4098 SpanState.start (by decide) (by decide)]
    rw [processCell_start defaultPalette none aCell]
    rw [spanLoop_uniform_a 4095 (0 + 1) 4098
      ⟨[], cellWidth aCell, some (getStyleFromCell aCell defaultPalette none),
        [emitCp aCell], utf8Len (emitCp aCell)⟩
      (by decide) rfl (by decide)]
    show SpanState.mk [] (cellWidth aCell + 4095)
        (some (getStyleFromCell aCell defaultPalette none))
        ([emitCp aCell] ++
          List.replicate (min 4095 (4096 - utf8Len (emitCp aCell))) 97)
        (min (utf8Len (emitCp aCell) + 4095) 4096) =
      SpanState.mk [] 4096 (some (getStyleFromCell aCell defaultPalette none))
        (97 :: List.replicate 4095 97) 4096
    rw [SpanState.mk.injEq]
    refine ⟨rfl, by decide, rfl, ?_, by decide⟩
    rw [(by decide : min 4095 (4096 - utf8Len (emitCp aCell)) = 4095),
        (by decide : emitCp aCell = 97)]
    rfl
  show spanLoop defaultPalette none
    (List.replicate 4096 aCell ++ [blankCell, bCell]) 0 4098 SpanState.start = _
  rw [spanLoop_append, List.length_replicate, hinner]
  rw [spanLoop_cons defaultPalette none blankCell [bCell] (0 + 4096) 4098
    ⟨[], 4096, some (getStyleFromCell aCell defaultPalette none),
      97 :: List.replicate 4095 97, 4096⟩ (by decide) (by decide)]
  rw [hstep1 (97 :: List.replicate 4095 97)]
  rw [spanLoop_cons defaultPalette none bCell [] (0 + 4096 + 1) 4098
    ⟨[], 4097, some (getStyleFromCell aCell defaultPalette none),
      97 :: List.replicate 4095 97, 4096⟩ (by decide) (by decide)]
  rw [hstep2 (97 :: List.replicate 4095 97)]
  rfl

/-- C5 counterexample: on the 4098-cell row `bigRow` the joined span text
is not the processed cells' codepoints, because the per-span 4096-byte
text buffer drops the last two codepoints while the loop still walks the
cells. -/
theorem row_text_counterexample :
    joinedText (rowSpans defaultPalette none bigRow) ≠
      (processedCells bigRow).map emitCp := by
  have hlcc : lastContentCol bigRow = 4098 := lcc_bigRow
  have hspans : rowSpans defaultPalette none bigRow =
      [⟨97 :: List.replicate 4095 97,
        (getStyleFromCell aCell defaultPalette none).fg,
        (getStyleFromCell aCell defaultPalette none).bg,
        (getStyleFromCell aCell defaultPalette none).flags, 4098⟩] := by
    show (if 0 < (spanLoop defaultPalette none bigRow 0 (lastContentCol bigRow)
            SpanState.start).text_len
          then (flushSpan (spanLoop defaultPalette none bigRow 0
            (lastContentCol bigRow) SpanState.start)).spans
          else (spanLoop defaultPalette none bigRow 0 (lastContentCol bigRow)
            SpanState.start).spans) = _
    rw [hlcc, spanLoop_bigRow]
    rw [if_pos (by decide :
      0 < (SpanState.mk [] 4098
        (some (getStyleFromCell aCell defaultPalette none))
        (97 :: List.replicate 4095 97) 4096).text_len)]
    rfl
  have hLHSlen : (joinedText (rowSpans defaultPalette none bigRow)).length =
      4096 := by
    rw [hspans]
    show ((97 :: List.replicate 4095 (97 : Nat)) ++ []).length = 4096
    rw [List.append_nil, List.length_cons, List.length_replicate]
  have hlen2 : bigRow.length = 4098 := by
    show (List.replicate 4096 aCell ++ [blankCell, bCell]).length = 4098
    rw [List.length_append, List.length_replicate]
    decide
  have hproc : processedCells bigRow = bigRow := by
    show processedFrom bigRow 0 (lastContentCol bigRow) = bigRow
    rw [hlcc]
    refine processedFrom_all bigRow 0 4098 (fun c hc => ?_) ?_
    · have hc2 : c ∈ List.replicate 4096 aCell ++ [blankCell, bCell] := hc
      rcases List.mem_append.mp hc2 with h | h
      · rw [List.eq_of_mem_replicate h]; decide
      · simp only [List.mem_cons, List.mem_singleton] at h
        rcases h with h | h | h
        · rw [h]; decide
        · rw [h]; decide
        · exact absurd h (List.not_mem_nil c)
    · rw [hlen2]
  intro h
  have hl := congrArg List.length h
  rw [hLHSlen, List.length_map, hproc, hlen2] at hl
  exact absurd hl (by decide)

/-! ## C6: limit-preserves-prefix -/

/-- Feeding the complete SGR-reset sequence `ESC [ m` to a ground-state
terminal with the default pen leaves the terminal unchanged. -/
theorem sgr_noop (t : Term) (hp : t.parser = VtParser.init)
    (hpen : t.pen = ({} : RawStyle)) :
    nextSlice t [27, 91, 109] = t := by
  obtain ⟨scr, pen, parser, modes, pal, bg⟩ := t
  replace hp : parser = VtParser.init := hp
  replace hpen : pen = ({} : RawStyle) := hpen
  subst hp
  subst hpen
  rfl

/-- A run of complete SGR-reset sequences is a no-op on a ground-state
terminal with the default pen. -/
theorem escRep_noop : ∀ (k : Nat) (t : Term), t.parser = VtParser.init →
    t.pen = ({} : RawStyle) → nextSlice t (escRep k) = t
  | 0, _, _, _ => rfl
  | k + 1, t, hp, hpen => by
      show nextSlice t (27 :: 91 :: 109 :: escRep k) = t
      calc nextSlice t (27 :: 91 :: 109 :: escRep k)
          = nextSlice (nextSlice t [27, 91, 109]) (escRep k) := by
            rw [← nextSlice_append]
            rfl
        _ = t := by rw [sgr_noop t hp hpen]; exact escRep_noop k t hp hpen

/-- Byte length of a run of SGR-reset sequences. -/
theorem escRep_length : ∀ k : Nat, (escRep k).length = 3 * k
  | 0 => rfl
  | k + 1 => by
      show (27 :: 91 :: 109 :: escRep k).length = 3 * (k + 1)
      simp only [List.length_cons, escRep_length k]
      omega

/-- The chunked feed loop stops after the first full chunk when the parser
is then in ground state and enough rows exist: the remaining input is never
fed. -/
theorem feedLoop_break (t : Term) (chunk rest2 : List Nat) (th : Nat)
    (hlen : chunk.length = chunkSize)
    (hg : (nextSlice t chunk).parser.state = ParserState.ground)
    (he : hasEnoughLines (nextSlice t chunk) th = true) :
    feedLoop t (chunk ++ rest2) th = nextSlice t chunk := by
  rcases chunk with _ | ⟨c, ctail⟩
  · rw [chunkSize] at hlen
    simp at hlen
  · show feedLoop t (c :: (ctail ++ rest2)) th = nextSlice t (c :: ctail)
    rw [feedLoop]
    have htk : (c :: (ctail ++ rest2)).take chunkSize = c :: ctail := by
      have h0 : ((c :: ctail) ++ rest2).take (c :: ctail).length = c :: ctail :=
        List.take_left _ _
      rw [hlen, List.cons_append] at h0
      exact h0
    rw [htk]
    split
    · rfl
    · rename_i hcond
      exact absurd ⟨hg, he⟩ hcond

/-- An input no longer than one chunk is always fed whole, early exit or
not. -/
theorem feedLoop_small : ∀ (input : List Nat) (t : Term) (th : Nat),
    input.length ≤ chunkSize →
    feedLoop t input th = nextSlice t input
  | [], t, th, _ => by
      rw [feedLoop]
      rfl
  | b0 :: tail, t, th, h => by
      rw [feedLoop]
      have htk : (b0 :: tail).take chunkSize = b0 :: tail :=
        List.take_of_length_le h
      have hdr : (b0 :: tail).drop chunkSize = [] :=
        List.drop_eq_nil_of_le h
      rw [htk, hdr]
      split
      · rfl
      · rw [feedLoop]

/-- C6 (amended): for inputs of at most one 4096-byte chunk the early-exit
feed loop degenerates to feeding everything, and the first `n` entries of
the unlimited `lines` array equal the `limit = n` array (a zero limit
means no limit, so `n` is positive). -/
theorem limit_prefix_amended (input : List Nat) (cols rows offset n : Nat)
    (hn : 0 < n) (hlen : input.length ≤ chunkSize) :
    (ptyToJsonDoc input cols rows offset 0).lines.take n =
      (ptyToJsonDoc input cols rows offset n).lines := by
  have h1 : ptyToJsonDoc input cols rows offset n =
      extractDoc (feedLoop (Term.init cols rows) input (n + offset + 20))
        offset (some n) := by
    rcases n with _ | m
    · omega
    · rfl
  have h0 : ptyToJsonDoc input cols rows offset 0 =
      extractDoc (nextSlice (Term.init cols rows) input) offset none := rfl
  rw [h0, h1, feedLoop_small input (Term.init cols rows) (n + offset + 20) hlen]
  show (((Term.allRows (nextSlice (Term.init cols rows) input)).drop offset).map
      (rowSpans (nextSlice (Term.init cols rows) input).palette
        (nextSlice (Term.init cols rows) input).background)).take n =
    (((Term.allRows (nextSlice (Term.init cols rows) input)).drop offset).take
      n).map
      (rowSpans (nextSlice (Term.init cols rows) input).palette
        (nextSlice (Term.init cols rows) input).background)
  rw [List.map_take]

/-- Witness for `limit_prefix_amended` at a one-byte input. -/
theorem limit_prefix_amended_witness :
    0 < 1 ∧ ([104] : List Nat).length ≤ chunkSize ∧
      (ptyToJsonDoc [104] 2 2 0 0).lines.take 1 =
        (ptyToJsonDoc [104] 2 2 0 1).lines :=
  ⟨by decide, by decide,
    limit_prefix_amended [104] 2 2 0 1 (by decide) (by decide)⟩

/-- C6 counterexample: on `cexInput` (a 4096-byte chunk that leaves the
parser in ground state on a screen already showing `threshold` rows,
followed by `CR Z` which rewrites row 0) the first entry of the unlimited
`lines` array differs from the `limit = 1` array at the same offset: the
early exit drops the trailing bytes. -/
theorem limit_prefix_counterexample :
    (ptyToJsonDoc cexInput 8 21 0 0).lines.take 1 ≠
      (ptyToJsonDoc cexInput 8 21 0 1).lines := by
  have hclen : cexChunk.length = chunkSize := by
    show (helloBytes ++ (escRep 1363 ++ [88, 89])).length = chunkSize
    rw [List.length_append, List.length_append, escRep_length]
    decide
  have hfeed : nextSlice (Term.init 8 21) cexChunk =
      nextSlice (nextSlice (Term.init 8 21) helloBytes) [88, 89] := by
    show nextSlice (Term.init 8 21)
      (helloBytes ++ (escRep 1363 ++ [88, 89])) = _
    rw [nextSlice_append, nextSlice_append]
    rw [escRep_noop 1363 (nextSlice (Term.init 8 21) helloBytes)
      (by decide) (by decide)]
  have hg2 : (nextSlice (Term.init 8 21) cexChunk).parser.state =
      ParserState.ground := by
    rw [hfeed]
    decide
  have he2 : hasEnoughLines (nextSlice (Term.init 8 21) cexChunk) 21 = true := by
    rw [hfeed]
    decide
  have hbreak : feedLoop (Term.init 8 21) cexInput 21 =
      nextSlice (Term.init 8 21) cexChunk := by
    show feedLoop (Term.init 8 21) (cexChunk ++ [13, 90]) 21 = _
    exact feedLoop_break (Term.init 8 21) cexChunk [13, 90] 21 hclen hg2 he2
  have h1 : ptyToJsonDoc cexInput 8 21 0 1 =
      extractDoc (nextSlice (nextSlice (Term.init 8 21) helloBytes) [88, 89])
        0 (some 1) := by
    show extractDoc (feedLoop (Term.init 8 21) cexInput 21) 0 (some 1) = _
    rw [hbreak, hfeed]
  have h0 : ptyToJsonDoc cexInput 8 21 0 0 =
      extractDoc (nextSlice (nextSlice (nextSlice (Term.init 8 21) helloBytes)
        [88, 89]) [13, 90]) 0 none := by
    show extractDoc (nextSlice (Term.init 8 21) cexInput) 0 none = _
    have hsplit : nextSlice (Term.init 8 21) cexInput =
        nextSlice (nextSlice (Term.init 8 21) cexChunk) [13, 90] := by
      show nextSlice (Term.init 8 21) (cexChunk ++ [13, 90]) = _
      rw [nextSlice_append]
    rw [hsplit, hfeed]
  rw [h0, h1]
  decide

end GhosttyOpentui
